import Mathlib

/-!
Verification of the execution-cache mutating admission webhook
(`backend/src/cache/server/mutation.go`).

The Go code is shallowly embedded: Go maps become association lists (with
`Option` distinguishing a `nil` map from an empty one, since assignment to a
`nil` map panics in Go while reads and `len` are fine), Go slices likewise
become `Option`-wrapped lists where the code distinguishes `nil` from empty,
and the generic JSON pipeline used by `generateCacheKeyFromTemplate`
(`json.Unmarshal` into `map[string]interface{}`, `delete`, `json.Marshal`,
`sha256`, `hex.EncodeToString`) is embedded by an executable JSON parser,
canonical serializer, UTF-8 encoder and SHA-256 implementation.
-/

deriving instance DecidableEq for Except

namespace KFPCache

/-! ## Generic list/string helpers (models of `strings.Contains`, `strings.HasSuffix`) -/

/-- Does `sub` occur as a contiguous sublist of `hay`?  Model of Go
`strings.Contains hay sub` at the character level. -/
def listHasSub : List Char → List Char → Bool
  | hay, sub =>
    if sub.isPrefixOf hay then true
    else match hay with
      | [] => false
      | _ :: t => listHasSub t sub

/-- Model of Go `strings.Contains`. -/
def strContains (hay sub : String) : Bool :=
  listHasSub hay.data sub.data

/-- Model of Go `strings.HasSuffix`. -/
def strHasSuffix (s suffix : String) : Bool :=
  suffix.data.isSuffixOf s.data

/-! ## Go map model

A Go `map[string]string` is modelled as an association list wrapped in
`Option`: `none` is a `nil` map.  Reads and `len` are total (a `nil` map reads
as empty); assignment to a `nil` map panics in Go, which the embedding of
`MutatePodIfCached` surfaces explicitly. -/

/-- Association-list lookup (leftmost binding wins; `setKV` keeps keys unique). -/
def getKV : List (String × String) → String → Option String
  | [], _ => none
  | (k', v') :: t, k => if k' = k then some v' else getKV t k

/-- Association-list update: replace the binding for `k` if present, else append.
Models Go `m[k] = v` on a non-nil map. -/
def setKV : List (String × String) → String → String → List (String × String)
  | [], k, v => [(k, v)]
  | (k', v') :: t, k, v => if k' = k then (k, v) :: t else (k', v') :: setKV t k v

/-- A Go `map[string]string`, `none` being a `nil` map. -/
abbrev GoStrMap := Option (List (String × String))

/-- Go `len` of a possibly-nil map. -/
def goMapLen (m : GoStrMap) : Nat :=
  match m with
  | none => 0
  | some l => l.length

/-- Go read `m[k]` together with the `, ok` presence bit (reading a nil map is
legal and finds nothing). -/
def goMapGet (m : GoStrMap) (k : String) : Option String :=
  match m with
  | none => none
  | some l => getKV l k

/-! ## JSON values

`json.Unmarshal` into a Go `map[string]interface{}` produces a tree of
`nil`s, `bool`s, `float64` numbers, `string`s, `[]interface{}` and nested
maps.  The embedding covers integer numerals (the templates in scope carry no
fractional numbers) and decodes them the way Go does: to the nearest
`float64`, kept as the exact integer that double denotes, so numerals at or
above `2^53` can decode to one and the same value.  Since a Go map is
unordered with unique keys, every object node is kept as an association list
sorted strictly by key, which is exactly the order `json.Marshal` emits map
keys in. -/

inductive JsonValue where
  | null : JsonValue
  | jbool : Bool → JsonValue
  | jnum : Int → JsonValue
  | jstr : String → JsonValue
  | jarr : List JsonValue → JsonValue
  | jobj : List (String × JsonValue) → JsonValue

mutual

/-- Decidable equality of JSON values (written by hand: `deriving` does not
handle this nested inductive). -/
def jvDecEq : (a b : JsonValue) → Decidable (a = b)
  | .null, .null => isTrue rfl
  | .null, .jbool _ => isFalse (fun h => JsonValue.noConfusion h)
  | .null, .jnum _ => isFalse (fun h => JsonValue.noConfusion h)
  | .null, .jstr _ => isFalse (fun h => JsonValue.noConfusion h)
  | .null, .jarr _ => isFalse (fun h => JsonValue.noConfusion h)
  | .null, .jobj _ => isFalse (fun h => JsonValue.noConfusion h)
  | .jbool _, .null => isFalse (fun h => JsonValue.noConfusion h)
  | .jbool a, .jbool b =>
      match decEq a b with
      | isTrue h => isTrue (by rw [h])
      | isFalse h => isFalse (fun he => h (by injection he))
  | .jbool _, .jnum _ => isFalse (fun h => JsonValue.noConfusion h)
  | .jbool _, .jstr _ => isFalse (fun h => JsonValue.noConfusion h)
  | .jbool _, .jarr _ => isFalse (fun h => JsonValue.noConfusion h)
  | .jbool _, .jobj _ => isFalse (fun h => JsonValue.noConfusion h)
  | .jnum _, .null => isFalse (fun h => JsonValue.noConfusion h)
  | .jnum _, .jbool _ => isFalse (fun h => JsonValue.noConfusion h)
  | .jnum a, .jnum b =>
      match decEq a b with
      | isTrue h => isTrue (by rw [h])
      | isFalse h => isFalse (fun he => h (by injection he))
  | .jnum _, .jstr _ => isFalse (fun h => JsonValue.noConfusion h)
  | .jnum _, .jarr _ => isFalse (fun h => JsonValue.noConfusion h)
  | .jnum _, .jobj _ => isFalse (fun h => JsonValue.noConfusion h)
  | .jstr _, .null => isFalse (fun h => JsonValue.noConfusion h)
  | .jstr _, .jbool _ => isFalse (fun h => JsonValue.noConfusion h)
  | .jstr _, .jnum _ => isFalse (fun h => JsonValue.noConfusion h)
  | .jstr a, .jstr b =>
      match decEq a b with
      | isTrue h => isTrue (by rw [h])
      | isFalse h => isFalse (fun he => h (by injection he))
  | .jstr _, .jarr _ => isFalse (fun h => JsonValue.noConfusion h)
  | .jstr _, .jobj _ => isFalse (fun h => JsonValue.noConfusion h)
  | .jarr _, .null => isFalse (fun h => JsonValue.noConfusion h)
  | .jarr _, .jbool _ => isFalse (fun h => JsonValue.noConfusion h)
  | .jarr _, .jnum _ => isFalse (fun h => JsonValue.noConfusion h)
  | .jarr _, .jstr _ => isFalse (fun h => JsonValue.noConfusion h)
  | .jarr a, .jarr b =>
      match jvListDecEq a b with
      | isTrue h => isTrue (by rw [h])
      | isFalse h => isFalse (fun he => h (by injection he))
  | .jarr _, .jobj _ => isFalse (fun h => JsonValue.noConfusion h)
  | .jobj _, .null => isFalse (fun h => JsonValue.noConfusion h)
  | .jobj _, .jbool _ => isFalse (fun h => JsonValue.noConfusion h)
  | .jobj _, .jnum _ => isFalse (fun h => JsonValue.noConfusion h)
  | .jobj _, .jstr _ => isFalse (fun h => JsonValue.noConfusion h)
  | .jobj _, .jarr _ => isFalse (fun h => JsonValue.noConfusion h)
  | .jobj a, .jobj b =>
      match jvFieldsDecEq a b with
      | isTrue h => isTrue (by rw [h])
      | isFalse h => isFalse (fun he => h (by injection he))

/-- Decidable equality of JSON value lists. -/
def jvListDecEq : (a b : List JsonValue) → Decidable (a = b)
  | [], [] => isTrue rfl
  | [], _ :: _ => isFalse (fun h => List.noConfusion h)
  | _ :: _, [] => isFalse (fun h => List.noConfusion h)
  | x :: xs, y :: ys =>
      match jvDecEq x y, jvListDecEq xs ys with
      | isTrue h1, isTrue h2 => isTrue (by rw [h1, h2])
      | isFalse h1, _ => isFalse (fun he => h1 (by injection he))
      | _, isFalse h2 => isFalse (fun he => h2 (by injection he))

/-- Decidable equality of JSON field lists. -/
def jvFieldsDecEq : (a b : List (String × JsonValue)) → Decidable (a = b)
  | [], [] => isTrue rfl
  | [], _ :: _ => isFalse (fun h => List.noConfusion h)
  | _ :: _, [] => isFalse (fun h => List.noConfusion h)
  | (k1, v1) :: xs, (k2, v2) :: ys =>
      match decEq k1 k2, jvDecEq v1 v2, jvFieldsDecEq xs ys with
      | isTrue h1, isTrue h2, isTrue h3 => isTrue (by rw [h1, h2, h3])
      | isFalse h1, _, _ =>
          isFalse (fun he => by
            injection he with hh ht
            injection hh with hk hv
            exact h1 hk)
      | _, isFalse h2, _ =>
          isFalse (fun he => by
            injection he with hh ht
            injection hh with hk hv
            exact h2 hv)
      | _, _, isFalse h3 =>
          isFalse (fun he => by
            injection he with hh ht
            exact h3 ht)

end

instance : DecidableEq JsonValue := jvDecEq

/-! ## Decimal rendering (model of Go integer formatting) -/

/-- Base-10 digits of `n`, least significant first (empty for `0`); the fuel
bounds the recursion and any `fuel ≥ n` is enough. -/
def natDigitsRev (fuel n : Nat) : List Nat :=
  match fuel with
  | 0 => []
  | fuel + 1 => if n = 0 then [] else n % 10 :: natDigitsRev fuel (n / 10)

/-- Decimal digits of `n`, most significant first; `0` renders as `"0"`. -/
def serNat (n : Nat) : List Char :=
  if n = 0 then ['0'] else ((natDigitsRev n n).map Nat.digitChar).reverse

/-- Model of Go `strconv.FormatInt i 10` (and of the integer case of
`json.Marshal` on numbers), as characters. -/
def serInt (i : Int) : List Char :=
  if i < 0 then '-' :: serNat i.natAbs else serNat i.toNat

/-- Model of Go `strconv.FormatInt i 10`. -/
def formatInt (i : Int) : String :=
  String.mk (serInt i)

/-! ## JSON serialization (model of `json.Marshal` on decoded generic values) -/

/-- Escape one character inside a JSON string literal.  Modelled subset: the
common escapes; Go's `json.Marshal` additionally writes `\u00XX` for other
control characters and HTML-escapes `<`, `>` and `&` — a value-level
divergence on strings containing those characters (both escapers are
injective, so the relational facts proved below hold of either). -/
def escChar (c : Char) : List Char :=
  if c = '"' then ['\\', '"']
  else if c = '\\' then ['\\', '\\']
  else if c = '\n' then ['\\', 'n']
  else if c = '\r' then ['\\', 'r']
  else if c = '\t' then ['\\', 't']
  else [c]

/-- Escape the body of a JSON string literal. -/
def escChars (s : List Char) : List Char :=
  s.flatMap escChar

mutual

/-- Serialize a JSON value, objects in stored (sorted) key order — the order
`json.Marshal` uses for Go maps. -/
def serChars : JsonValue → List Char
  | .null => ['n', 'u', 'l', 'l']
  | .jbool true => ['t', 'r', 'u', 'e']
  | .jbool false => ['f', 'a', 'l', 's', 'e']
  | .jnum i => serInt i
  | .jstr s => '"' :: (escChars s.data ++ ['"'])
  | .jarr xs => '[' :: (serElems xs ++ [']'])
  | .jobj kvs => '{' :: (serFields kvs ++ ['}'])

/-- Serialize array elements, comma-separated. -/
def serElems : List JsonValue → List Char
  | [] => []
  | [x] => serChars x
  | x :: y :: xs => serChars x ++ ',' :: serElems (y :: xs)

/-- Serialize object fields, comma-separated. -/
def serFields : List (String × JsonValue) → List Char
  | [] => []
  | [(k, v)] => '"' :: (escChars k.data ++ '"' :: ':' :: serChars v)
  | (k, v) :: f :: fs =>
      ('"' :: (escChars k.data ++ '"' :: ':' :: serChars v)) ++ ',' :: serFields (f :: fs)

end

/-! ## UTF-8 encoding (model of taking the bytes of a Go string) -/

/-- UTF-8 encoding of one unicode scalar value. -/
def utf8EncodeChar (c : Char) : List Nat :=
  let n := c.toNat
  if n < 0x80 then [n]
  else if n < 0x800 then [0xc0 + n / 64, 0x80 + n % 64]
  else if n < 0x10000 then [0xe0 + n / 4096, 0x80 + n / 64 % 64, 0x80 + n % 64]
  else [0xf0 + n / 262144, 0x80 + n / 4096 % 64, 0x80 + n / 64 % 64, 0x80 + n % 64]

/-- UTF-8 encoding of a character sequence. -/
def utf8Encode (s : List Char) : List Nat :=
  s.flatMap utf8EncodeChar

/-! ## SHA-256 (model of `crypto/sha256`), on byte lists, words as `Nat % 2^32` -/

/-- Rotate a 32-bit word right by `n`. -/
def rotr32 (x n : Nat) : Nat :=
  ((x >>> n) ||| (x <<< (32 - n))) % 2 ^ 32

/-- The 64 SHA-256 round constants. -/
def shaK : List Nat :=
  [1116352408, 1899447441, 3049323471, 3921009573, 961987163,
   1508970993, 2453635748, 2870763221, 3624381080, 310598401,
   607225278, 1426881987, 1925078388, 2162078206, 2614888103,
   3248222580, 3835390401, 4022224774, 264347078, 604807628,
   770255983, 1249150122, 1555081692, 1996064986, 2554220882,
   2821834349, 2952996808, 3210313671, 3336571891, 3584528711,
   113926993, 338241895, 666307205, 773529912, 1294757372,
   1396182291, 1695183700, 1986661051, 2177026350, 2456956037,
   2730485921, 2820302411, 3259730800, 3345764771, 3516065817,
   3600352804, 4094571909, 275423344, 430227734, 506948616,
   659060556, 883997877, 958139571, 1322822218, 1537002063,
   1747873779, 1955562222, 2024104815, 2227730452, 2361852424,
   2428436474, 2756734187, 3204031479, 3329325298]

/-- The SHA-256 initial hash state. -/
def shaH0 : List Nat :=
  [1779033703, 3144134277, 1013904242, 2773480762, 1359893119,
   2600822924, 528734635, 1541459225]

/-- The `count` big-endian bytes of `v`. -/
def beBytes : Nat → Nat → List Nat
  | 0, _ => []
  | c + 1, v => beBytes c (v / 256) ++ [v % 256]

/-- SHA-256 padding: append `0x80`, zeros to 56 mod 64, and the 64-bit
big-endian bit length. -/
def sha256Pad (msg : List Nat) : List Nat :=
  let l := msg.length
  let zeros := (64 + 56 - (l + 1) % 64) % 64
  msg ++ 0x80 :: List.replicate zeros 0 ++ beBytes 8 (8 * l)

/-- Split a byte list into 64-byte blocks (fuel-based; any `fuel ≥ l.length`
is enough, since every step consumes at least one element). -/
def chunks64Go : Nat → List Nat → List (List Nat)
  | 0, _ => []
  | _, [] => []
  | fuel + 1, x :: rest => ((x :: rest).take 64) :: chunks64Go fuel ((x :: rest).drop 64)

/-- Split a byte list into 64-byte blocks. -/
def chunks64 (l : List Nat) : List (List Nat) :=
  chunks64Go l.length l

/-- Combine bytes into big-endian 32-bit words. -/
def bytesToWords : List Nat → List Nat
  | b0 :: b1 :: b2 :: b3 :: rest =>
      (((b0 * 256 + b1) * 256 + b2) * 256 + b3) :: bytesToWords rest
  | _ => []

/-- SHA-256 σ₀. -/
def smallSigma0 (x : Nat) : Nat := rotr32 x 7 ^^^ rotr32 x 18 ^^^ (x >>> 3)

/-- SHA-256 σ₁. -/
def smallSigma1 (x : Nat) : Nat := rotr32 x 17 ^^^ rotr32 x 19 ^^^ (x >>> 10)

/-- SHA-256 Σ₀. -/
def bigSigma0 (x : Nat) : Nat := rotr32 x 2 ^^^ rotr32 x 13 ^^^ rotr32 x 22

/-- SHA-256 Σ₁. -/
def bigSigma1 (x : Nat) : Nat := rotr32 x 6 ^^^ rotr32 x 11 ^^^ rotr32 x 25

/-- Extend the 16 block words by `n` further schedule words. -/
def extendSchedule : Nat → List Nat → List Nat
  | 0, w => w
  | n + 1, w =>
      let i := w.length
      let nw := (smallSigma1 (w.getD (i - 2) 0) + w.getD (i - 7) 0 +
                 smallSigma0 (w.getD (i - 15) 0) + w.getD (i - 16) 0) % 2 ^ 32
      extendSchedule n (w ++ [nw])

/-- One SHA-256 compression round; the state is the 8 working words. -/
def compressStep (st : List Nat) (kw : Nat × Nat) : List Nat :=
  match st with
  | [a, b, c, d, e, f, g, h] =>
      let ch := (e &&& f) ^^^ ((e ^^^ 0xffffffff) &&& g)
      let maj := (a &&& b) ^^^ (a &&& c) ^^^ (b &&& c)
      let t1 := (h + bigSigma1 e + ch + kw.1 + kw.2) % 2 ^ 32
      let t2 := (bigSigma0 a + maj) % 2 ^ 32
      [(t1 + t2) % 2 ^ 32, a, b, c, (d + t1) % 2 ^ 32, e, f, g]
  | _ => st

/-- Compress one 64-byte block into the hash state. -/
def compressBlock (hs : List Nat) (block : List Nat) : List Nat :=
  let w := extendSchedule 48 (bytesToWords block)
  let final := (shaK.zip w).foldl compressStep hs
  (hs.zip final).map (fun p => (p.1 + p.2) % 2 ^ 32)

/-- SHA-256 digest (32 bytes) of a byte list. -/
def sha256Bytes (msg : List Nat) : List Nat :=
  ((chunks64 (sha256Pad msg)).foldl compressBlock shaH0).flatMap (beBytes 4)

/-- Model of Go `hex.EncodeToString` (lowercase). -/
def hexEncode (bytes : List Nat) : String :=
  String.mk (bytes.flatMap (fun b => [Nat.digitChar (b / 16), Nat.digitChar (b % 16)]))

/-! ## JSON parsing (model of `json.Unmarshal` into `map[string]interface{}`)

Modelled subset: `null` is not accepted at top level (Go would leave the map
`nil`), numbers are integer numerals (no fraction/exponent), string escapes
are the simple ones (no `\u`).  Object fields are inserted with
last-occurrence-wins (Go map assignment in textual order) into a list sorted
strictly by key (the canonical form of an unordered Go map). -/

/-- Skip JSON whitespace. -/
def skipWs : List Char → List Char
  | c :: cs => if c = ' ' || c = '\t' || c = '\n' || c = '\r' then skipWs cs else c :: cs
  | [] => []

/-- Is `c` a decimal digit? -/
def isDigitCh (c : Char) : Bool := '0' ≤ c && c ≤ '9'

/-- Split off the leading run of decimal digits. -/
def readDigits : List Char → List Char × List Char
  | c :: cs =>
      if isDigitCh c then
        let p := readDigits cs
        (c :: p.1, p.2)
      else ([], c :: cs)
  | [] => ([], [])

/-- Numeric value of a digit run (most significant first). -/
def digitsToNat (ds : List Char) : Nat :=
  ds.foldl (fun a c => a * 10 + (c.toNat - '0'.toNat)) 0

/-- Parse an unsigned JSON integer (no leading zeros except `0` itself). -/
def pNat (cs : List Char) : Option (Nat × List Char) :=
  let p := readDigits cs
  match p.1 with
  | [] => none
  | d :: ds => if d = '0' && ds ≠ [] then none else some (digitsToNat p.1, p.2)

/-- Count of binary digits of `n` (fuel-based; any `fuel ≥ n` is enough,
since every step halves `n`). -/
def natBits : Nat → Nat → Nat
  | 0, _ => 0
  | fuel + 1, n => if n = 0 then 0 else natBits fuel (n / 2) + 1

/-- Length of `n` in bits. -/
def bitLen (n : Nat) : Nat := natBits n n

/-- The magnitude of the IEEE-754 binary64 value nearest to `n` (round to
nearest, ties to even): exact below `2^53`, above that rounded to a 53-bit
mantissa at the granularity of the value's binade. -/
def roundNatToDouble (n : Nat) : Nat :=
  if n < 2 ^ 53 then n
  else
    let k := bitLen n - 53
    let q := n / 2 ^ k
    let r := n % 2 ^ k
    let half := 2 ^ (k - 1)
    if r < half then q * 2 ^ k
    else if half < r then (q + 1) * 2 ^ k
    else if q % 2 = 0 then q * 2 ^ k else (q + 1) * 2 ^ k

/-- Model of Go decoding an integer JSON numeral into a `float64`
(`json.Unmarshal` goes through `strconv.ParseFloat`): the numeral's value
rounded to the nearest double, kept as the exact integer the double denotes;
`none` when the value overflows to infinity, which `json.Unmarshal` surfaces
as a decode error. -/
def float64OfIntNumeral (i : Int) : Option Int :=
  let m := roundNatToDouble i.natAbs
  if 1024 < bitLen m then none
  else if i < 0 then some (-(m : Int)) else some ((m : Int))

/-- Parse a JSON integer numeral, with optional leading minus, decoding it to
the `float64` value Go produces: numerals at or above `2^53` are rounded to
the nearest double, so nearby numerals can decode to the same value, and
out-of-range numerals fail the decode.  (The modelled subset excludes `-0`,
fractions and exponents.) -/
def pNumber (cs : List Char) : Option (Int × List Char) :=
  match cs with
  | '-' :: r =>
      match pNat r with
      | none => none
      | some (n, rest) =>
          if n = 0 then none
          else (float64OfIntNumeral (-(n : Int))).map (fun v => (v, rest))
  | _ =>
      match pNat cs with
      | none => none
      | some (n, rest) => (float64OfIntNumeral ((n : Int))).map (fun v => (v, rest))

/-- Parse the body of a JSON string literal after the opening quote; returns
the decoded characters and the input after the closing quote.  (Raw control
characters are accepted here although Go's `json.Unmarshal` rejects them —
over-coverage only: the model derives keys for some templates the program
fails open on.) -/
def pStringBody : List Char → Option (List Char × List Char)
  | [] => none
  | '"' :: r => some ([], r)
  | '\\' :: e :: r =>
      let dec : Option Char :=
        if e = '"' then some '"'
        else if e = '\\' then some '\\'
        else if e = '/' then some '/'
        else if e = 'n' then some '\n'
        else if e = 'r' then some '\r'
        else if e = 't' then some '\t'
        else none
      match dec with
      | none => none
      | some c =>
          match pStringBody r with
          | none => none
          | some p => some (c :: p.1, p.2)
  | c :: r =>
      match pStringBody r with
      | none => none
      | some p => some (c :: p.1, p.2)

/-- Strict lexicographic order on character lists by code point — the same
order as Go's bytewise string comparison, since UTF-8 preserves code-point
order. -/
def keyLtChars : List Char → List Char → Bool
  | [], [] => false
  | [], _ :: _ => true
  | _ :: _, [] => false
  | a :: as, b :: bs =>
      if a.toNat < b.toNat then true
      else if b.toNat < a.toNat then false
      else keyLtChars as bs

/-- Go's string order (`s1 < s2` bytewise), used by `json.Marshal` to sort
map keys. -/
def keyLt (a b : String) : Bool :=
  keyLtChars a.data b.data

/-- Insert a field parsed earlier in the text in front of the fields parsed
after it: if the key reappears later the later binding is kept, which is
Go's last-occurrence-wins map semantics; otherwise the field is placed at its
sorted position. -/
def insertField (k : String) (v : JsonValue) : List (String × JsonValue) → List (String × JsonValue)
  | [] => [(k, v)]
  | (k', v') :: t =>
      if k = k' then (k', v') :: t
      else if keyLt k k' then (k, v) :: (k', v') :: t
      else (k', v') :: insertField k v t

mutual

/-- Parse one JSON value (fuel-based recursion). -/
def pValue : Nat → List Char → Option (JsonValue × List Char)
  | 0, _ => none
  | fuel + 1, cs =>
      match skipWs cs with
      | 'n' :: 'u' :: 'l' :: 'l' :: r => some (.null, r)
      | 't' :: 'r' :: 'u' :: 'e' :: r => some (.jbool true, r)
      | 'f' :: 'a' :: 'l' :: 's' :: 'e' :: r => some (.jbool false, r)
      | '"' :: r => (pStringBody r).map (fun p => (.jstr (String.mk p.1), p.2))
      | '[' :: r =>
          (match skipWs r with
           | ']' :: r2 => some (.jarr [], r2)
           | r2 => (pElems fuel r2).map (fun p => (.jarr p.1, p.2)))
      | '{' :: r =>
          (match skipWs r with
           | '}' :: r2 => some (.jobj [], r2)
           | r2 => (pFields fuel r2).map (fun p => (.jobj p.1, p.2)))
      | cs' => (pNumber cs').map (fun p => (.jnum p.1, p.2))

/-- Parse the elements of a non-empty JSON array up to `]`. -/
def pElems : Nat → List Char → Option (List JsonValue × List Char)
  | 0, _ => none
  | fuel + 1, cs =>
      match pValue fuel cs with
      | none => none
      | some (v, r) =>
          match skipWs r with
          | ',' :: r2 => (pElems fuel r2).map (fun p => (v :: p.1, p.2))
          | ']' :: r2 => some ([v], r2)
          | _ => none

/-- Parse the fields of a non-empty JSON object up to `}`. -/
def pFields : Nat → List Char → Option (List (String × JsonValue) × List Char)
  | 0, _ => none
  | fuel + 1, cs =>
      match skipWs cs with
      | '"' :: r =>
          match pStringBody r with
          | none => none
          | some (kcs, r1) =>
              match skipWs r1 with
              | ':' :: r2 =>
                  match pValue fuel r2 with
                  | none => none
                  | some (v, r3) =>
                      match skipWs r3 with
                      | ',' :: r4 => (pFields fuel r4).map (fun p => (insertField (String.mk kcs) v p.1, p.2))
                      | '}' :: r4 => some ([(String.mk kcs, v)], r4)
                      | _ => none
              | _ => none
      | _ => none

end

/-- Model of `json.Unmarshal(b, &templateMap)` for a `map[string]interface{}`
target: the whole input must be one JSON object (plus whitespace). -/
def parseTemplate (template : String) : Option (List (String × JsonValue)) :=
  match pValue (2 * template.data.length + 2) template.data with
  | some (.jobj fields, rest) => if skipWs rest = [] then some fields else none
  | _ => none

/-! ## Constants of `mutation.go` -/

/-- Constant `KFPAnnotation` from `mutation.go`. -/
def KFPAnnotation : String := "pipelines.kubeflow.org"

/-- Constant `ArgoWorkflowNodeName` from `mutation.go`. -/
def ArgoWorkflowNodeName : String := "workflows.argoproj.io/node-name"

/-- Constant `ArgoWorkflowTemplate` from `mutation.go`. -/
def ArgoWorkflowTemplate : String := "workflows.argoproj.io/template"

/-- Constant `ExecutionKey` from `mutation.go`. -/
def ExecutionKey : String := "pipelines.kubeflow.org/execution_cache_key"

/-- Constant `CacheIDLabelKey` from `mutation.go`. -/
def CacheIDLabelKey : String := "pipelines.kubeflow.org/cache_id"

/-- Constant `AnnotationPath` from `mutation.go`. -/
def AnnotationPath : String := "/metadata/annotations"

/-- Constant `LabelPath` from `mutation.go`. -/
def LabelPath : String := "/metadata/labels"

/-- Constant `ArgoWorkflowOutputs` from `mutation.go`. -/
def ArgoWorkflowOutputs : String := "workflows.argoproj.io/outputs"

/-- Constant `TFXPodSuffix` from `mutation.go`. -/
def TFXPodSuffix : String := "tfx/orchestration/kubeflow/container_entrypoint.py"

/-- Constant `ArchiveLocationKey` from `mutation.go`. -/
def ArchiveLocationKey : String := "archiveLocation"

/-! ## The cache-key deriver -/

/-- Does the decoded template map have field `k`?  (Go `_, exists := m[k]`.) -/
def hasField (fields : List (String × JsonValue)) (k : String) : Bool :=
  fields.any (fun kv => kv.1 = k)

/-- Model of Go `delete(m, k)`. -/
def removeField (fields : List (String × JsonValue)) (k : String) : List (String × JsonValue) :=
  fields.filter (fun kv => kv.1 ≠ k)

/-- Embedding of `generateCacheKeyFromTemplate` (`mutation.go` lines 145–170):
unmarshal the template, delete the top-level `archiveLocation` field if
present, re-marshal, and return the lowercase-hex SHA-256 of the bytes. -/
def generateCacheKeyFromTemplate (template : String) : Except String String :=
  match parseTemplate template with
  | none => .error "invalid template json"
  | some templateMap =>
      let templateMap :=
        if hasField templateMap ArchiveLocationKey then
          removeField templateMap ArchiveLocationKey
        else templateMap
      let b := utf8Encode (serChars (.jobj templateMap))
      .ok (hexEncode (sha256Bytes b))

/-- The exact byte string whose SHA-256 digest `generateCacheKeyFromTemplate`
returns (`none` when the template does not unmarshal): the serialized form of
the decoded template with the top-level `archiveLocation` field removed. -/
def cacheKeyPreimage (template : String) : Option (List Nat) :=
  match parseTemplate template with
  | none => none
  | some templateMap => some (utf8Encode (serChars (.jobj (removeField templateMap ArchiveLocationKey))))

/-! ## Pod and admission data model (the fields `mutation.go` reads) -/

/-- Embedding of `corev1.Container`: the fields the webhook touches. -/
structure Container where
  name : String
  image : String
  command : List String
deriving DecidableEq

/-- A pod, with Go `nil`/empty distinctions kept where the code can observe
them: a missing `metadata.annotations` / `metadata.labels` mapping is `none`
(writing to it panics in Go), and `spec.containers` / `spec.initContainers`
distinguish a `nil` slice from a declared-but-empty one. -/
structure Pod where
  name : String
  annotations : GoStrMap
  labels : GoStrMap
  containers : Option (List Container)
  initContainers : Option (List Container)
deriving DecidableEq

/-- Embedding of `metav1.GroupVersionResource`. -/
structure GroupVersionResource where
  group : String
  version : String
  resource : String
deriving DecidableEq

/-- Constant `podResource` from `mutation.go`: version `v1`, resource `pods`, empty group. -/
def podResource : GroupVersionResource := ⟨"", "v1", "pods"⟩

/-- An admission request: the resource descriptor and the raw pod object,
embedded through its deserialization result (`some pod` when
`universalDeserializer.Decode` succeeds, `none` when it fails). -/
structure AdmissionRequest where
  resource : GroupVersionResource
  objectRaw : Option Pod
deriving DecidableEq

/-- Modelled from the spec: `model.ExecutionCache` (the repository's cache
record type is not under `src/`); §3 gives it a numeric identifier and a
serialized execution-output payload, and `mutation.go` reads exactly the
fields `ID` (an `int64`, passed to `strconv.FormatInt(_, 10)`) and
`ExecutionOutput` (a string). -/
structure ExecutionCache where
  id : Int
  executionOutput : String
deriving DecidableEq

/-- The pair returned by `CacheStore().GetExecutionCache`: a possibly-nil
record pointer and a possibly-nil error. -/
structure CacheLookupResult where
  cached : Option ExecutionCache
  err : Option String
deriving DecidableEq

/-- The value slot of a patch operation: `mutation.go` stores either a
container list or a `map[string]string` there. -/
inductive PatchValue where
  | containers : List Container → PatchValue
  | stringMap : List (String × String) → PatchValue
deriving DecidableEq

/-- Modelled from the spec: `patchOperation` (declared in the repository's
webhook glue, not under `src/`); §3 and §6 make it a triple of operation kind,
JSON-pointer path and optional value. -/
structure patchOperation where
  op : String
  path : String
  value : Option PatchValue
deriving DecidableEq

/-- Modelled from the spec: the `OperationTypeAdd` constant names the JSON
patch `add` operation kind. -/
def OperationTypeAdd : String := "add"

/-! ## Pod eligibility (`isValidPod`, `isKFPArgoPod`, `isTFXPod`) -/

/-- The underlying list of a possibly-nil Go slice. -/
def goContainers (o : Option (List Container)) : List Container :=
  o.getD []

/-- Go `len` of a possibly-nil slice. -/
def goLen (o : Option (List Container)) : Nat :=
  (goContainers o).length

/-- Embedding of `isTFXPod` (`mutation.go` lines 205–217): collect the
containers named `"main"`; the pod is a TFX pod iff there is exactly one and
its last command token ends with `TFXPodSuffix`. -/
def isTFXPod (containers : List Container) : Bool :=
  let mainContainers := containers.filter (fun c => c.name != "" && c.name == "main")
  match mainContainers with
  | [mainContainer] =>
      mainContainer.command.length != 0 &&
        strHasSuffix (mainContainer.command.getLastD "") TFXPodSuffix
  | _ => false

/-- Embedding of `isKFPArgoPod` (`mutation.go` lines 190–203): the annotation
map must have the Argo workflow-node key and some key containing the
`pipelines.kubeflow.org` marker. -/
def isKFPArgoPod (annotations : List (String × String)) : Bool :=
  match getKV annotations ArgoWorkflowNodeName with
  | none => false
  | some _ => annotations.any (fun kv => strContains kv.1 KFPAnnotation)

/-- Embedding of `isValidPod` (`mutation.go` lines 172–188). -/
def isValidPod (pod : Pod) : Bool :=
  match pod.annotations with
  | none => false
  | some annotations =>
      if annotations.length = 0 then false
      else if !isKFPArgoPod annotations then false
      else
        let containers := pod.containers
        if containers.isSome && (goLen containers != 0) && isTFXPod (goContainers containers) then
          false
        else true

/-! ## The mutation entry point -/

/-- The outcome of a call to `MutatePodIfCached`.  Go returns
`([]patchOperation, error)` and mutates the decoded pod's annotation/label
maps through aliasing; the embedding returns the patch list together with the
pod as it stands after the call (`none` when no pod was decoded), and makes
the two abnormal exits explicit: the returned deserialization error, and the
runtime panic Go raises on assignment to a nil map. -/
inductive MutateResult where
  | ok : List patchOperation → Option Pod → MutateResult
  | decodeError : String → MutateResult
  | nilMapPanic : String → MutateResult
deriving DecidableEq

/-- The fixed placeholder container substituted on a cache hit. -/
def dummyContainer : Container := ⟨"dummy", "alpine", ["true"]⟩

/-- The single-element container list used in the replace patch. -/
def dummyContainers : List Container := [dummyContainer]

/-- The tail of every patch-emitting return (`mutation.go` lines 129–142):
append the add of the full annotation map and the add of the full label map,
and return together with the pod, whose (aliased) maps now hold the updated
bindings. -/
def finishPatches (pod : Pod) (annotations labels : List (String × String))
    (patches : List patchOperation) : MutateResult :=
  let patches := patches ++
    [⟨OperationTypeAdd, AnnotationPath, some (.stringMap annotations)⟩,
     ⟨OperationTypeAdd, LabelPath, some (.stringMap labels)⟩]
  .ok patches (some { pod with annotations := some annotations, labels := some labels })

/-- Embedding of `MutatePodIfCached` (`mutation.go` lines 55–143).  The cache
store dependency (`clientMgr.CacheStore().GetExecutionCache`) is passed as the
function `store`. -/
def MutatePodIfCached (req : AdmissionRequest) (store : String → CacheLookupResult) :
    MutateResult :=
  if req.resource ≠ podResource then
    .ok [] none
  else
    match req.objectRaw with
    | none => .decodeError "could not deserialize pod object"
    | some pod =>
      if !isValidPod pod then
        .ok [] (some pod)
      else
        match goMapGet pod.annotations ArgoWorkflowTemplate with
        | none => .ok [] (some pod)
        | some template =>
          match generateCacheKeyFromTemplate template with
          | .error _ => .ok [] (some pod)
          | .ok executionHashKey =>
            -- `annotations[ExecutionKey] = executionHashKey` (line 93):
            -- assignment to a nil map panics in Go (unreachable here, since
            -- `isValidPod` required a non-empty annotation map).
            match pod.annotations with
            | none => .nilMapPanic "assignment to entry in nil map"
            | some annotations0 =>
              let annotations := setKV annotations0 ExecutionKey executionHashKey
              -- `labels[CacheIDLabelKey] = ""` (line 94): panics when the
              -- pod has no label map.
              match pod.labels with
              | none => .nilMapPanic "assignment to entry in nil map"
              | some labels0 =>
                let labels := setKV labels0 CacheIDLabelKey ""
                -- The lookup error is only logged (line 99); the decision
                -- below keys solely on the returned record.
                match (store executionHashKey).cached with
                | some cachedExecution =>
                    let annotations :=
                      setKV annotations ArgoWorkflowOutputs cachedExecution.executionOutput
                    let labels :=
                      setKV labels CacheIDLabelKey (formatInt cachedExecution.id)
                    let patches :=
                      [⟨"replace", "/spec/containers", some (.containers dummyContainers)⟩]
                    let patches :=
                      if pod.initContainers.isSome || goLen pod.initContainers != 0 then
                        patches ++ [⟨"remove", "/spec/initContainers", none⟩]
                      else patches
                    finishPatches pod annotations labels patches
                | none =>
                    finishPatches pod annotations labels []

/-! ## Specification-side accessors and proof-side helper definitions -/

/-- The patch list of an outcome (empty for the abnormal exits). -/
def resultPatches : MutateResult → List patchOperation
  | .ok ps _ => ps
  | _ => []

/-- The post-call pod of an outcome. -/
def resultPod : MutateResult → Option Pod
  | .ok _ p => p
  | _ => none

/-- The fingerprint `MutatePodIfCached` derives for a request: the cache key of
the pod's workflow-template annotation, when the request decodes and the
derivation succeeds. -/
def reqDerivedKey (req : AdmissionRequest) : Option String :=
  match req.objectRaw with
  | none => none
  | some pod =>
      match goMapGet pod.annotations ArgoWorkflowTemplate with
      | none => none
      | some t =>
          match generateCacheKeyFromTemplate t with
          | .ok k => some k
          | .error _ => none

/-- The value the cache-id label is given for fingerprint `k`: empty on a
miss, the decimal record id on a hit. -/
def cacheIdLabelValue (store : String → CacheLookupResult) (k : String) : String :=
  match (store k).cached with
  | none => ""
  | some ce => formatInt ce.id

/-- Does `r` avoid starting with a decimal digit?  (The condition under which
a serialized number followed by `r` reads back unambiguously.) -/
def numOk : List Char → Bool
  | [] => true
  | c :: _ => !isDigitCh c

/-- Discriminates the first character of a serialized JSON value. -/
def headKind (c : Char) : Nat :=
  if isDigitCh c || c = '-' then 6
  else if c = 'n' then 0
  else if c = 't' then 1
  else if c = 'f' then 1
  else if c = '"' then 3
  else if c = '[' then 4
  else if c = '{' then 5
  else 7

/-- Constructor index of a JSON value, aligned with `headKind`. -/
def ctorIdx : JsonValue → Nat
  | .null => 0
  | .jbool _ => 1
  | .jstr _ => 3
  | .jarr _ => 4
  | .jobj _ => 5
  | .jnum _ => 6

/-- What follows the first element in a serialized array tail. -/
def serElemsRest : List JsonValue → List Char
  | [] => []
  | y :: ys => ',' :: serElems (y :: ys)

/-- What follows the first field in a serialized object tail. -/
def serFieldsRest : List (String × JsonValue) → List Char
  | [] => []
  | f :: fs => ',' :: serFields (f :: fs)

mutual

/-- Size of a JSON value (induction measure). -/
def jsize : JsonValue → Nat
  | .null => 1
  | .jbool _ => 1
  | .jnum _ => 1
  | .jstr _ => 1
  | .jarr xs => 1 + lsize xs
  | .jobj kvs => 1 + fsize kvs

/-- Size of an element list. -/
def lsize : List JsonValue → Nat
  | [] => 0
  | x :: xs => 1 + jsize x + lsize xs

/-- Size of a field list. -/
def fsize : List (String × JsonValue) → Nat
  | [] => 0
  | (_, v) :: fs => 1 + jsize v + fsize fs

end

/-- Inverse of `Nat.digitChar` on decimal digits. -/
def charToDigit (c : Char) : Nat := c.toNat - '0'.toNat

/-- The character denoted by a JSON escape code, aligned with `escChar`. -/
def escCode (e : Char) : Option Char :=
  if e = '"' then some '"'
  else if e = '\\' then some '\\'
  else if e = 'n' then some '\n'
  else if e = 'r' then some '\r'
  else if e = 't' then some '\t'
  else none

/-! ## Concrete fixtures for witnesses and counterexamples -/

/-- An eligible annotation map: Argo node-name, a KFP marker key, and the
workflow-template annotation holding the template `{}`. -/
def annEligible : List (String × String) :=
  [(ArgoWorkflowNodeName, "n1"), ("pipelines.kubeflow.org/x", "y"),
   (ArgoWorkflowTemplate, "\x7b\x7d")]

/-- An eligible pod with present (empty) labels, one non-TFX main container,
and a nil init-container list. -/
def podEligible : Pod :=
  ⟨"p1", some annEligible, some [], some [⟨"main", "img", ["run"]⟩], none⟩

/-- Pod `podEligible` with a declared-but-empty init-container list. -/
def podEmptyInit : Pod :=
  ⟨"p2", some annEligible, some [], some [⟨"main", "img", ["run"]⟩], some []⟩

/-- An eligible pod whose `metadata.labels` mapping is absent (nil). -/
def podNilLabels : Pod :=
  ⟨"p3", some annEligible, none, none, none⟩

/-- A pod-resource admission request wrapping a decoded pod. -/
def mkReq (pod : Pod) : AdmissionRequest :=
  ⟨podResource, some pod⟩

/-- A store with no record for any key. -/
def storeMiss : String → CacheLookupResult := fun _ => ⟨none, none⟩

/-- A store holding record id 42 with output payload `out` for every key. -/
def storeHit : String → CacheLookupResult := fun _ => ⟨some ⟨42, "out"⟩, none⟩

/-- A store that fails with an error and returns no record. -/
def storeErr : String → CacheLookupResult := fun _ => ⟨none, some "lookup failed"⟩

/-- A store that returns an error, yet a (non-nil) record alongside it. -/
def storeErrHit : String → CacheLookupResult := fun _ => ⟨some ⟨7, "o"⟩, some "lookup failed"⟩

/-- An eligible pod with no `"main"` container. -/
def podNoMain : Pod :=
  ⟨"p4", some annEligible, some [], some [], none⟩

/-- A command whose last token ends with the TFX entrypoint suffix. -/
def tfxCommand : List String :=
  ["python", "-m", "a/tfx/orchestration/kubeflow/container_entrypoint.py"]

/-- A pod with exactly one `"main"` container running the TFX entrypoint. -/
def podTFX : Pod :=
  ⟨"p5", some annEligible, some [], some [⟨"main", "img", tfxCommand⟩], none⟩

/-- A pod with a nil annotation map. -/
def podNilAnn : Pod :=
  ⟨"p6", none, some [], none, none⟩

/-- The fingerprint of the template `{}`: the SHA-256 of the bytes `{}`. -/
def emptyTemplateKey : String :=
  "44136fa355b3678a1146ad16f7e8649e94fb4fc21fe77e8310c060f61caaff8a"

/-- A template with an archive location: `{"archiveLocation":"run-123","steps":1}`. -/
def templateRun123 : String :=
  "\x7b\"archiveLocation\":\"run-123\",\"steps\":1\x7d"

/-- The same template with a different archive location key. -/
def templateRun456 : String :=
  "\x7b\"archiveLocation\":\"run-456\",\"steps\":1\x7d"

/-- The same template with the archive location absent. -/
def templateNoArchive : String :=
  "\x7b\"steps\":1\x7d"

/-- A template differing from `templateNoArchive` in the `steps` field. -/
def templateOtherSteps : String :=
  "\x7b\"steps\":2\x7d"

/-- A template whose `a` field is the numeral `9007199254740993` (`2^53 + 1`),
which `float64` decoding rounds to `2^53`. -/
def templateTwoPow53Succ : String :=
  "\x7b\"a\":9007199254740993\x7d"

/-- The same template with the numeral `9007199254740992` (`2^53`). -/
def templateTwoPow53 : String :=
  "\x7b\"a\":9007199254740992\x7d"

/-! ## Small map lemmas -/

theorem getKV_setKV_same (m : List (String × String)) (k v : String) :
    getKV (setKV m k v) k = some v := by
  induction m with
  | nil => simp [setKV, getKV]
  | cons hd tl ih =>
      by_cases h : hd.1 = k
      · simp [setKV, getKV, h]
      · simp [setKV, getKV, h, ih]

theorem getKV_setKV_other (m : List (String × String)) (k v k' : String) (h : k' ≠ k) :
    getKV (setKV m k v) k' = getKV m k' := by
  have hkk : ¬k = k' := fun he => h he.symm
  induction m with
  | nil => simp [setKV, getKV, hkk]
  | cons hd tl ih =>
      obtain ⟨a, b⟩ := hd
      by_cases h1 : a = k
      · subst h1
        simp [setKV, getKV, hkk]
      · by_cases h2 : a = k'
        · subst h2
          simp [setKV, getKV, h1]
        · simp [setKV, getKV, h1, h2, ih]

theorem removeField_of_not_hasField (m : List (String × JsonValue)) (k : String)
    (h : hasField m k = false) : removeField m k = m := by
  rw [removeField, List.filter_eq_self]
  intro kv hkv
  simp only [hasField, List.any_eq_false] at h
  simpa using h kv hkv

/-! ## C10 -/

/-- C10: for a container list whose single `"main"` container has an empty
command list, `isTFXPod` is `false`: the last-token test is guarded by the
non-emptiness check and an empty command never classifies the pod as TFX. -/
theorem c10_empty_command_main_not_excluded (containers : List Container) (mainC : Container)
    (hmain : containers.filter (fun c => c.name != "" && c.name == "main") = [mainC])
    (hcmd : mainC.command = []) :
    isTFXPod containers = false := by
  simp [isTFXPod, hmain, hcmd]

theorem c10_witness :
    (([⟨"main", "img", []⟩] : List Container).filter
        (fun c => c.name != "" && c.name == "main") = [⟨"main", "img", []⟩]) ∧
    isTFXPod [⟨"main", "img", []⟩] = false :=
  ⟨by decide, c10_empty_command_main_not_excluded _ ⟨"main", "img", []⟩ (by decide) rfl⟩

/-! ## C6 -/

/-- C6: the eligibility filter: (i) a pod with no annotations (nil or empty
mapping) is never eligible; (ii) a pod with the workflow-node annotation key,
some key containing the pipelines-namespace marker, and no container named
`"main"` is eligible; (iii) such a pod that additionally has exactly one
`"main"` container whose last command token ends with the TFX entrypoint
suffix is not eligible. -/
theorem c6_eligibility_filter :
    (∀ pod : Pod, (pod.annotations = none ∨ pod.annotations = some []) →
        isValidPod pod = false) ∧
    (∀ (pod : Pod) (am : List (String × String)),
        pod.annotations = some am →
        getKV am ArgoWorkflowNodeName ≠ none →
        am.any (fun kv => strContains kv.1 KFPAnnotation) = true →
        (goContainers pod.containers).filter (fun c => c.name != "" && c.name == "main") = [] →
        isValidPod pod = true) ∧
    (∀ (pod : Pod) (am : List (String × String)) (mainC : Container),
        pod.annotations = some am →
        getKV am ArgoWorkflowNodeName ≠ none →
        am.any (fun kv => strContains kv.1 KFPAnnotation) = true →
        (goContainers pod.containers).filter (fun c => c.name != "" && c.name == "main") = [mainC] →
        mainC.command ≠ [] →
        strHasSuffix (mainC.command.getLastD "") TFXPodSuffix = true →
        isValidPod pod = false) := by
  refine ⟨?_, ?_, ?_⟩
  · intro pod h
    rcases h with h | h <;> simp [isValidPod, h]
  · intro pod am ham hnode hmark hnomain
    have hne : am ≠ [] := by
      intro he
      exact hnode (by simp [he, getKV])
    obtain ⟨v, hv⟩ := Option.ne_none_iff_exists'.mp hnode
    have htfx : isTFXPod (goContainers pod.containers) = false := by
      simp [isTFXPod, hnomain]
    simp [isValidPod, ham, hne, isKFPArgoPod, hv, hmark, htfx]
  · intro pod am mainC ham hnode hmark hmain hcmd hsuf
    obtain ⟨v, hv⟩ := Option.ne_none_iff_exists'.mp hnode
    have hne : am ≠ [] := by
      intro he
      exact hnode (by simp [he, getKV])
    have htfx : isTFXPod (goContainers pod.containers) = true := by
      have hlen : mainC.command.length ≠ 0 := by
        simpa [List.length_eq_zero] using hcmd
      simp [isTFXPod, hmain, hlen]
      simpa [List.getLastD_eq_getLast?] using hsuf
    obtain ⟨cs, hcs⟩ : ∃ cs, pod.containers = some cs := by
      cases hc : pod.containers with
      | none =>
          rw [hc] at hmain
          simp [goContainers] at hmain
      | some cs => exact ⟨cs, rfl⟩
    have hcsne : cs ≠ [] := by
      intro he
      rw [hcs, he] at hmain
      simp [goContainers] at hmain
    have htfx' : isTFXPod cs = true := by
      rw [hcs] at htfx
      simpa [goContainers] using htfx
    simp [isValidPod, ham, hne, isKFPArgoPod, hv, hmark, hcs, goLen, goContainers,
      List.length_eq_zero, hcsne, htfx']

theorem c6_witness :
    (podNilAnn.annotations = none ∨ podNilAnn.annotations = some []) ∧
    isValidPod podNilAnn = false ∧
    (podNoMain.annotations = some annEligible ∧
     getKV annEligible ArgoWorkflowNodeName ≠ none ∧
     (annEligible.any (fun kv => strContains kv.1 KFPAnnotation)) = true ∧
     (goContainers podNoMain.containers).filter
       (fun c => c.name != "" && c.name == "main") = [] ∧
     isValidPod podNoMain = true) ∧
    (podTFX.annotations = some annEligible ∧
     (goContainers podTFX.containers).filter
       (fun c => c.name != "" && c.name == "main") = [⟨"main", "img", tfxCommand⟩] ∧
     isValidPod podTFX = false) :=
  ⟨Or.inl rfl,
   c6_eligibility_filter.1 podNilAnn (Or.inl rfl),
   ⟨rfl, by decide, by decide, by decide,
    c6_eligibility_filter.2.1 podNoMain annEligible rfl (by decide) (by decide) (by decide)⟩,
   ⟨rfl, by decide,
    c6_eligibility_filter.2.2 podTFX annEligible ⟨"main", "img", tfxCommand⟩ rfl
      (by decide) (by decide) (by decide) (by decide) (by decide)⟩⟩

/-! ## The main decision path of `MutatePodIfCached` (shared helper) -/

theorem mutate_main_path (req : AdmissionRequest) (store : String → CacheLookupResult)
    (pod : Pod) (am0 lm0 : List (String × String)) (t k : String)
    (hres : req.resource = podResource)
    (hraw : req.objectRaw = some pod)
    (hvalid : isValidPod pod = true)
    (hann : pod.annotations = some am0)
    (htem : getKV am0 ArgoWorkflowTemplate = some t)
    (hkey : generateCacheKeyFromTemplate t = .ok k)
    (hlab : pod.labels = some lm0) :
    MutatePodIfCached req store =
      match (store k).cached with
      | some ce =>
          finishPatches pod
            (setKV (setKV am0 ExecutionKey k) ArgoWorkflowOutputs ce.executionOutput)
            (setKV (setKV lm0 CacheIDLabelKey "") CacheIDLabelKey (formatInt ce.id))
            (if pod.initContainers.isSome || goLen pod.initContainers != 0 then
               [⟨"replace", "/spec/containers", some (.containers dummyContainers)⟩,
                ⟨"remove", "/spec/initContainers", none⟩]
             else
               [⟨"replace", "/spec/containers", some (.containers dummyContainers)⟩])
      | none => finishPatches pod (setKV am0 ExecutionKey k) (setKV lm0 CacheIDLabelKey "") [] := by
  unfold MutatePodIfCached
  simp only [hres, hraw, hvalid, hann, hlab, goMapGet, htem, hkey, ne_eq, Bool.not_true]
  simp only [not_true_eq_false, if_false, Bool.false_eq_true, ite_false]
  cases hc : (store k).cached with
  | none => simp
  | some ce => simp

/-! ## C1 -/

/-- C1: the claim asserts every failure after successful deserialization is
absorbed (patch list and nil error), explicitly including pods with a nil
`metadata.labels` mapping.  The code violates this: for an eligible pod with
a valid template annotation and a nil label map, `labels[CacheIDLabelKey] = ""`
(line 94) is an assignment to a nil map, which panics at runtime instead of
returning. -/
theorem c1_nil_labels_panics :
    podNilLabels.labels = none ∧
    isValidPod podNilLabels = true ∧
    MutatePodIfCached (mkReq podNilLabels) storeMiss =
      .nilMapPanic "assignment to entry in nil map" :=
  ⟨rfl, by decide, by decide⟩

/-! ## C2 -/

/-- C2 counterexample: the claim says a pod with an empty init-container list
gets no remove operation, but the guard on line 119 is
`InitContainers != nil || len(InitContainers) != 0`, which is true for a
declared-but-empty (non-nil, length-0) list, so the remove is emitted. -/
theorem c2_counterexample :
    podEmptyInit.initContainers = some [] ∧
    (resultPatches (MutatePodIfCached (mkReq podEmptyInit) storeHit)).any
      (fun p => p.op == "remove" && p.path == "/spec/initContainers") = true :=
  ⟨rfl, by decide⟩

/-- C2 (amended): on a cache hit for an eligible pod with a derivable
fingerprint, the remove at the init-container list path is emitted iff the
pod's init-container field is present (non-nil) — including when it is
present but empty; only a pod with an absent (nil) init-container list gets
no remove. -/
theorem c2_remove_iff_init_present (req : AdmissionRequest)
    (store : String → CacheLookupResult) (pod : Pod)
    (am0 lm0 : List (String × String)) (t k : String) (ce : ExecutionCache)
    (hres : req.resource = podResource)
    (hraw : req.objectRaw = some pod)
    (hvalid : isValidPod pod = true)
    (hann : pod.annotations = some am0)
    (htem : getKV am0 ArgoWorkflowTemplate = some t)
    (hkey : generateCacheKeyFromTemplate t = .ok k)
    (hlab : pod.labels = some lm0)
    (hc : (store k).cached = some ce) :
    ((resultPatches (MutatePodIfCached req store)).any
       (fun p => p.op == "remove" && p.path == "/spec/initContainers"))
      = pod.initContainers.isSome := by
  rw [mutate_main_path req store pod am0 lm0 t k hres hraw hvalid hann htem hkey hlab, hc]
  cases hic : pod.initContainers with
  | none => simp [finishPatches, resultPatches, goLen, goContainers, OperationTypeAdd]
  | some l => simp [finishPatches, resultPatches, goLen, goContainers, OperationTypeAdd]

theorem c2_witness :
    generateCacheKeyFromTemplate "\x7b\x7d" = .ok emptyTemplateKey ∧
    podEmptyInit.initContainers.isSome = true ∧
    ((resultPatches (MutatePodIfCached (mkReq podEmptyInit) storeHit)).any
       (fun p => p.op == "remove" && p.path == "/spec/initContainers"))
      = podEmptyInit.initContainers.isSome :=
  ⟨by decide, rfl,
   c2_remove_iff_init_present (mkReq podEmptyInit) storeHit podEmptyInit
     annEligible [] "\x7b\x7d" emptyTemplateKey ⟨42, "out"⟩
     rfl rfl (by decide) rfl (by decide) (by decide) rfl rfl⟩

/-! ## C3 -/

/-- C3 counterexample: the claim says the pod object is never mutated, but
`annotations := pod.ObjectMeta.Annotations` aliases the pod's own map, so
`annotations[ExecutionKey] = …` and `labels[CacheIDLabelKey] = …` (lines
93–94) change the pod in place: after a run on an eligible pod, both maps
differ from their pre-call values. -/
theorem c3_counterexample :
    (resultPod (MutatePodIfCached (mkReq podEligible) storeMiss)).map Pod.annotations ≠
      some podEligible.annotations ∧
    (resultPod (MutatePodIfCached (mkReq podEligible) storeMiss)).map Pod.labels ≠
      some podEligible.labels :=
  ⟨by decide, by decide⟩

/-- C3 (amended): the pod's spec fields — name, container list and
init-container list — are never mutated; all container changes are expressed
only as returned patch operations.  (The annotation and label maps, by
contrast, are updated in place through aliasing whenever a fingerprint is
derived.) -/
theorem c3_spec_fields_never_mutated (req : AdmissionRequest)
    (store : String → CacheLookupResult) (patches : List patchOperation)
    (pod pd : Pod)
    (hraw : req.objectRaw = some pod)
    (h : MutatePodIfCached req store = .ok patches (some pd)) :
    pd.name = pod.name ∧ pd.containers = pod.containers ∧
      pd.initContainers = pod.initContainers := by
  unfold MutatePodIfCached at h
  split at h
  next => simp at h
  next =>
    split at h
    next => simp at h
    next pod' hraw' =>
      have hpp : pod' = pod := by
        rw [hraw] at hraw'
        exact (Option.some.inj hraw').symm
      subst hpp
      split at h
      next =>
        injection h with h1 h2
        injection h2 with h3
        rw [← h3]
        exact ⟨rfl, rfl, rfl⟩
      next =>
        split at h
        next =>
          injection h with h1 h2
          injection h2 with h3
          rw [← h3]
          exact ⟨rfl, rfl, rfl⟩
        next t htem =>
          split at h
          next e hkeyerr =>
            injection h with h1 h2
            injection h2 with h3
            rw [← h3]
            exact ⟨rfl, rfl, rfl⟩
          next k hkey =>
            split at h
            next => simp at h
            next am0 hann =>
              split at h
              next => simp at h
              next lm0 hlab =>
                split at h
                next ce hc =>
                  simp only [finishPatches, MutateResult.ok.injEq, Option.some.injEq] at h
                  rw [← h.2]
                  exact ⟨rfl, rfl, rfl⟩
                next hc =>
                  simp only [finishPatches, MutateResult.ok.injEq, Option.some.injEq] at h
                  rw [← h.2]
                  exact ⟨rfl, rfl, rfl⟩

theorem c3_witness :
    (mkReq podEligible).objectRaw = some podEligible ∧
    MutatePodIfCached (mkReq podEligible) storeMiss =
      .ok (resultPatches (MutatePodIfCached (mkReq podEligible) storeMiss))
          (some ((resultPod (MutatePodIfCached (mkReq podEligible) storeMiss)).getD podEligible)) ∧
    ((resultPod (MutatePodIfCached (mkReq podEligible) storeMiss)).getD podEligible).name
        = podEligible.name ∧
    ((resultPod (MutatePodIfCached (mkReq podEligible) storeMiss)).getD podEligible).containers
        = podEligible.containers ∧
    ((resultPod (MutatePodIfCached (mkReq podEligible) storeMiss)).getD podEligible).initContainers
        = podEligible.initContainers :=
  ⟨rfl, by decide,
   (c3_spec_fields_never_mutated (mkReq podEligible) storeMiss
      (resultPatches (MutatePodIfCached (mkReq podEligible) storeMiss))
      podEligible
      ((resultPod (MutatePodIfCached (mkReq podEligible) storeMiss)).getD podEligible)
      rfl (by decide)).1,
   (c3_spec_fields_never_mutated (mkReq podEligible) storeMiss
      (resultPatches (MutatePodIfCached (mkReq podEligible) storeMiss))
      podEligible
      ((resultPod (MutatePodIfCached (mkReq podEligible) storeMiss)).getD podEligible)
      rfl (by decide)).2.1,
   (c3_spec_fields_never_mutated (mkReq podEligible) storeMiss
      (resultPatches (MutatePodIfCached (mkReq podEligible) storeMiss))
      podEligible
      ((resultPod (MutatePodIfCached (mkReq podEligible) storeMiss)).getD podEligible)
      rfl (by decide)).2.2⟩

/-! ## C7 -/

/-- C7: for an eligible pod with a derived fingerprint, a cache hit yields
exactly one replace at the container-list path, whose value is the
single-element placeholder container list; a cache miss yields no operation
at the container-list or init-container-list path. -/
theorem c7_hit_replace_miss_no_container_patch (req : AdmissionRequest)
    (store : String → CacheLookupResult) (pod : Pod)
    (am0 lm0 : List (String × String)) (t k : String)
    (hres : req.resource = podResource)
    (hraw : req.objectRaw = some pod)
    (hvalid : isValidPod pod = true)
    (hann : pod.annotations = some am0)
    (htem : getKV am0 ArgoWorkflowTemplate = some t)
    (hkey : generateCacheKeyFromTemplate t = .ok k)
    (hlab : pod.labels = some lm0) :
    ((store k).cached ≠ none →
       (resultPatches (MutatePodIfCached req store)).filter
         (fun p => p.op == "replace" && p.path == "/spec/containers")
         = [⟨"replace", "/spec/containers", some (.containers dummyContainers)⟩]) ∧
    ((store k).cached = none →
       (resultPatches (MutatePodIfCached req store)).filter
         (fun p => p.path == "/spec/containers" || p.path == "/spec/initContainers") = []) := by
  rw [mutate_main_path req store pod am0 lm0 t k hres hraw hvalid hann htem hkey hlab]
  constructor
  · intro hne
    obtain ⟨ce, hc⟩ := Option.ne_none_iff_exists'.mp hne
    rw [hc]
    by_cases hic : (pod.initContainers.isSome || goLen pod.initContainers != 0) = true
    · simp [hic, finishPatches, resultPatches, OperationTypeAdd, AnnotationPath, LabelPath]
    · simp only [hic] at *
      simp [hic, finishPatches, resultPatches, OperationTypeAdd, AnnotationPath, LabelPath]
  · intro hc
    rw [hc]
    simp [finishPatches, resultPatches, OperationTypeAdd, AnnotationPath, LabelPath]

theorem c7_witness :
    (storeHit emptyTemplateKey).cached ≠ none ∧
    (resultPatches (MutatePodIfCached (mkReq podEligible) storeHit)).filter
      (fun p => p.op == "replace" && p.path == "/spec/containers")
      = [⟨"replace", "/spec/containers", some (.containers dummyContainers)⟩] ∧
    (storeMiss emptyTemplateKey).cached = none ∧
    (resultPatches (MutatePodIfCached (mkReq podEligible) storeMiss)).filter
      (fun p => p.path == "/spec/containers" || p.path == "/spec/initContainers") = [] :=
  ⟨by decide,
   (c7_hit_replace_miss_no_container_patch (mkReq podEligible) storeHit podEligible
      annEligible [] "\x7b\x7d" emptyTemplateKey
      rfl rfl (by decide) rfl (by decide) (by decide) rfl).1 (by decide),
   rfl,
   (c7_hit_replace_miss_no_container_patch (mkReq podEligible) storeMiss podEligible
      annEligible [] "\x7b\x7d" emptyTemplateKey
      rfl rfl (by decide) rfl (by decide) (by decide) rfl).2 rfl⟩

/-! ## C8 -/

/-- C8 counterexample: the claim says any lookup error is decided exactly as a
miss regardless of what was returned alongside; but the code keys only on the
returned record (line 102), so a lookup that returns an error together with a
non-nil record is decided as a hit: a container replace patch is emitted. -/
theorem c8_counterexample :
    (storeErrHit emptyTemplateKey).err ≠ none ∧
    (resultPatches (MutatePodIfCached (mkReq podEligible) storeErrHit)).any
      (fun p => p.path == "/spec/containers") = true :=
  ⟨by decide, by decide⟩

/-- C8 (amended): when the lookup returns a nil record — in particular in the
usual error case, whatever the accompanying error value is — the request is
decided exactly as a cache miss: no container or init-container patch is
emitted, the labels add carries the cache-id label with the empty string, and
the annotations written do not gain an outputs annotation. -/
theorem c8_nil_record_is_miss (req : AdmissionRequest)
    (store : String → CacheLookupResult) (pod : Pod)
    (am0 lm0 : List (String × String)) (t k : String)
    (hres : req.resource = podResource)
    (hraw : req.objectRaw = some pod)
    (hvalid : isValidPod pod = true)
    (hann : pod.annotations = some am0)
    (htem : getKV am0 ArgoWorkflowTemplate = some t)
    (hkey : generateCacheKeyFromTemplate t = .ok k)
    (hlab : pod.labels = some lm0)
    (hc : (store k).cached = none) :
    ((resultPatches (MutatePodIfCached req store)).filter
        (fun p => p.path == "/spec/containers" || p.path == "/spec/initContainers") = []) ∧
    ((resultPatches (MutatePodIfCached req store)).getLast? =
       some ⟨OperationTypeAdd, LabelPath, some (.stringMap (setKV lm0 CacheIDLabelKey ""))⟩) ∧
    getKV (setKV lm0 CacheIDLabelKey "") CacheIDLabelKey = some "" ∧
    getKV (setKV am0 ExecutionKey k) ArgoWorkflowOutputs = getKV am0 ArgoWorkflowOutputs := by
  rw [mutate_main_path req store pod am0 lm0 t k hres hraw hvalid hann htem hkey hlab, hc]
  refine ⟨?_, ?_, getKV_setKV_same _ _ _, getKV_setKV_other _ _ _ _ (by decide)⟩
  · simp [finishPatches, resultPatches, OperationTypeAdd, AnnotationPath, LabelPath]
  · simp [finishPatches, resultPatches]

theorem c8_witness :
    (storeErr emptyTemplateKey).err ≠ none ∧
    (storeErr emptyTemplateKey).cached = none ∧
    ((resultPatches (MutatePodIfCached (mkReq podEligible) storeErr)).filter
        (fun p => p.path == "/spec/containers" || p.path == "/spec/initContainers") = []) ∧
    ((resultPatches (MutatePodIfCached (mkReq podEligible) storeErr)).getLast? =
       some ⟨OperationTypeAdd, LabelPath,
         some (.stringMap (setKV [] CacheIDLabelKey ""))⟩) ∧
    getKV (setKV [] CacheIDLabelKey "") CacheIDLabelKey = some "" ∧
    getKV (setKV annEligible ExecutionKey emptyTemplateKey) ArgoWorkflowOutputs
      = getKV annEligible ArgoWorkflowOutputs :=
  ⟨by decide, rfl,
   (c8_nil_record_is_miss (mkReq podEligible) storeErr podEligible
      annEligible [] "\x7b\x7d" emptyTemplateKey
      rfl rfl (by decide) rfl (by decide) (by decide) rfl rfl).1,
   (c8_nil_record_is_miss (mkReq podEligible) storeErr podEligible
      annEligible [] "\x7b\x7d" emptyTemplateKey
      rfl rfl (by decide) rfl (by decide) (by decide) rfl rfl).2.1,
   (c8_nil_record_is_miss (mkReq podEligible) storeErr podEligible
      annEligible [] "\x7b\x7d" emptyTemplateKey
      rfl rfl (by decide) rfl (by decide) (by decide) rfl rfl).2.2.1,
   (c8_nil_record_is_miss (mkReq podEligible) storeErr podEligible
      annEligible [] "\x7b\x7d" emptyTemplateKey
      rfl rfl (by decide) rfl (by decide) (by decide) rfl rfl).2.2.2⟩

/-! ## C9 -/

theorem mutate_nonempty_inversion (req : AdmissionRequest)
    (store : String → CacheLookupResult) (patches : List patchOperation)
    (pd : Option Pod)
    (h : MutatePodIfCached req store = .ok patches pd) (hne : patches ≠ []) :
    ∃ (pod : Pod) (am0 lm0 : List (String × String)) (t k : String),
      req.resource = podResource ∧ req.objectRaw = some pod ∧
      isValidPod pod = true ∧ pod.annotations = some am0 ∧
      getKV am0 ArgoWorkflowTemplate = some t ∧
      generateCacheKeyFromTemplate t = .ok k ∧ pod.labels = some lm0 := by
  unfold MutatePodIfCached at h
  split at h
  next hres =>
    injection h with h1 h2
    exact absurd h1.symm hne
  next hres =>
    have hres' : req.resource = podResource := not_not.mp (by simpa using hres)
    split at h
    next => simp at h
    next pod hraw =>
      split at h
      next hval =>
        injection h with h1 h2
        exact absurd h1.symm hne
      next hval =>
        have hval' : isValidPod pod = true := by
          simpa using hval
        split at h
        next htem =>
          injection h with h1 h2
          exact absurd h1.symm hne
        next t htem =>
          split at h
          next e hkey =>
            injection h with h1 h2
            exact absurd h1.symm hne
          next k hkey =>
            split at h
            next hann => simp at h
            next am0 hann =>
              split at h
              next hlab => simp at h
              next lm0 hlab =>
                refine ⟨pod, am0, lm0, t, k, hres', hraw, hval', hann, ?_, hkey, hlab⟩
                rw [hann] at htem
                simpa [goMapGet] using htem

/-- C9: whenever `MutatePodIfCached` returns a non-empty patch list, it ends
with exactly two add operations, first at the annotations path and then at
the labels path; the annotations value maps the execution cache-key
annotation to the derived fingerprint, the labels value maps the cache-id
label to `""` on a miss and to the decimal record id on a hit, and every
earlier patch targets the container or init-container list. -/
theorem c9_trailing_metadata_adds (req : AdmissionRequest)
    (store : String → CacheLookupResult) (patches : List patchOperation)
    (pd : Option Pod)
    (h : MutatePodIfCached req store = .ok patches pd) (hne : patches ≠ []) :
    ∃ (front : List patchOperation) (amv lmv : List (String × String)) (k : String),
      patches = front ++
        [⟨OperationTypeAdd, AnnotationPath, some (.stringMap amv)⟩,
         ⟨OperationTypeAdd, LabelPath, some (.stringMap lmv)⟩] ∧
      (∀ p ∈ front, p.path = "/spec/containers" ∨ p.path = "/spec/initContainers") ∧
      reqDerivedKey req = some k ∧
      getKV amv ExecutionKey = some k ∧
      getKV lmv CacheIDLabelKey = some (cacheIdLabelValue store k) := by
  obtain ⟨pod, am0, lm0, t, k, hres, hraw, hval, hann, htem, hkey, hlab⟩ :=
    mutate_nonempty_inversion req store patches pd h hne
  have hmain := mutate_main_path req store pod am0 lm0 t k hres hraw hval hann htem hkey hlab
  rw [h] at hmain
  have hdk : reqDerivedKey req = some k := by
    simp [reqDerivedKey, hraw, goMapGet, hann, htem, hkey]
  cases hc : (store k).cached with
  | none =>
      rw [hc] at hmain
      simp only [finishPatches, MutateResult.ok.injEq, List.nil_append] at hmain
      refine ⟨[], setKV am0 ExecutionKey k, setKV lm0 CacheIDLabelKey "", k,
        by simpa using hmain.1, ?_, hdk, getKV_setKV_same _ _ _, ?_⟩
      · simp
      · simp [cacheIdLabelValue, hc, getKV_setKV_same]
  | some ce =>
      rw [hc] at hmain
      by_cases hic : (pod.initContainers.isSome || goLen pod.initContainers != 0) = true
      · rw [if_pos hic] at hmain
        simp only [finishPatches, MutateResult.ok.injEq] at hmain
        refine ⟨[⟨"replace", "/spec/containers", some (.containers dummyContainers)⟩,
                 ⟨"remove", "/spec/initContainers", none⟩],
          setKV (setKV am0 ExecutionKey k) ArgoWorkflowOutputs ce.executionOutput,
          setKV (setKV lm0 CacheIDLabelKey "") CacheIDLabelKey (formatInt ce.id), k,
          by simpa using hmain.1, ?_, hdk, ?_, ?_⟩
        · intro p hp
          simp only [List.mem_cons, List.not_mem_nil, or_false] at hp
          rcases hp with hp | hp
          · subst hp
            exact Or.inl rfl
          · subst hp
            exact Or.inr rfl
        · rw [getKV_setKV_other _ _ _ _ (by decide)]
          exact getKV_setKV_same _ _ _
        · simp [cacheIdLabelValue, hc, getKV_setKV_same]
      · rw [if_neg hic] at hmain
        simp only [finishPatches, MutateResult.ok.injEq] at hmain
        refine ⟨[⟨"replace", "/spec/containers", some (.containers dummyContainers)⟩],
          setKV (setKV am0 ExecutionKey k) ArgoWorkflowOutputs ce.executionOutput,
          setKV (setKV lm0 CacheIDLabelKey "") CacheIDLabelKey (formatInt ce.id), k,
          by simpa using hmain.1, ?_, hdk, ?_, ?_⟩
        · intro p hp
          simp only [List.mem_singleton] at hp
          subst hp
          exact Or.inl rfl
        · rw [getKV_setKV_other _ _ _ _ (by decide)]
          exact getKV_setKV_same _ _ _
        · simp [cacheIdLabelValue, hc, getKV_setKV_same]

theorem c9_witness :
    MutatePodIfCached (mkReq podEligible) storeHit =
      .ok (resultPatches (MutatePodIfCached (mkReq podEligible) storeHit))
          (resultPod (MutatePodIfCached (mkReq podEligible) storeHit)) ∧
    resultPatches (MutatePodIfCached (mkReq podEligible) storeHit) ≠ [] ∧
    (∃ (front : List patchOperation) (amv lmv : List (String × String)) (k : String),
      resultPatches (MutatePodIfCached (mkReq podEligible) storeHit) = front ++
        [⟨OperationTypeAdd, AnnotationPath, some (.stringMap amv)⟩,
         ⟨OperationTypeAdd, LabelPath, some (.stringMap lmv)⟩] ∧
      (∀ p ∈ front, p.path = "/spec/containers" ∨ p.path = "/spec/initContainers") ∧
      reqDerivedKey (mkReq podEligible) = some k ∧
      getKV amv ExecutionKey = some k ∧
      getKV lmv CacheIDLabelKey = some (cacheIdLabelValue storeHit k)) :=
  ⟨by decide, by decide,
   c9_trailing_metadata_adds (mkReq podEligible) storeHit
     (resultPatches (MutatePodIfCached (mkReq podEligible) storeHit))
     (resultPod (MutatePodIfCached (mkReq podEligible) storeHit))
     (by decide) (by decide)⟩

/-! ## C4 -/

theorem genKey_strips_archive (o : List (String × JsonValue)) :
    (if hasField o ArchiveLocationKey then removeField o ArchiveLocationKey else o)
      = removeField o ArchiveLocationKey := by
  by_cases ha : hasField o ArchiveLocationKey = true
  · rw [if_pos ha]
  · rw [if_neg ha, removeField_of_not_hasField o _ (by simpa using ha)]

theorem genKey_eq_of_removeField_eq (t1 t2 : String)
    (o1 o2 : List (String × JsonValue))
    (h1 : parseTemplate t1 = some o1) (h2 : parseTemplate t2 = some o2)
    (h : removeField o1 ArchiveLocationKey = removeField o2 ArchiveLocationKey) :
    generateCacheKeyFromTemplate t1 = generateCacheKeyFromTemplate t2 := by
  unfold generateCacheKeyFromTemplate
  simp only [h1, h2]
  rw [genKey_strips_archive o1, genKey_strips_archive o2, h]

/-- C4: two templates that both unmarshal and whose decoded objects agree
after removing the top-level `archiveLocation` field (so they differ only in
that field, including one having it and the other lacking it) get the same
fingerprint. -/
theorem c4_archive_location_irrelevant (t1 t2 : String)
    (o1 o2 : List (String × JsonValue))
    (h1 : parseTemplate t1 = some o1) (h2 : parseTemplate t2 = some o2)
    (h : removeField o1 ArchiveLocationKey = removeField o2 ArchiveLocationKey) :
    generateCacheKeyFromTemplate t1 = generateCacheKeyFromTemplate t2 :=
  genKey_eq_of_removeField_eq t1 t2 o1 o2 h1 h2 h

theorem c4_witness :
    parseTemplate templateRun123 = some ((parseTemplate templateRun123).getD []) ∧
    parseTemplate templateRun456 = some ((parseTemplate templateRun456).getD []) ∧
    parseTemplate templateNoArchive = some ((parseTemplate templateNoArchive).getD []) ∧
    removeField ((parseTemplate templateRun123).getD []) ArchiveLocationKey
      = removeField ((parseTemplate templateRun456).getD []) ArchiveLocationKey ∧
    removeField ((parseTemplate templateRun123).getD []) ArchiveLocationKey
      = removeField ((parseTemplate templateNoArchive).getD []) ArchiveLocationKey ∧
    generateCacheKeyFromTemplate templateRun123 = generateCacheKeyFromTemplate templateRun456 ∧
    generateCacheKeyFromTemplate templateRun123 = generateCacheKeyFromTemplate templateNoArchive :=
  ⟨rfl, rfl, rfl, by decide, by decide,
   c4_archive_location_irrelevant templateRun123 templateRun456 _ _ rfl rfl (by decide),
   c4_archive_location_irrelevant templateRun123 templateNoArchive _ _ rfl rfl (by decide)⟩

/-! ## C5: injectivity of the canonical serialization

The chain below shows the serialized JSON byte string determines the decoded
value: decimal runs, escaped strings and bracketed sequences all read back
unambiguously, so two different decoded templates can never feed the same
bytes to SHA-256. -/

theorem digitChar_isDigit : ∀ d < 10, isDigitCh (Nat.digitChar d) = true := by decide

theorem charToDigit_digitChar : ∀ d < 10, charToDigit (Nat.digitChar d) = d := by decide

theorem natDigitsRev_eq_digits : ∀ (n fuel : Nat), n ≤ fuel →
    natDigitsRev fuel n = Nat.digits 10 n := by
  intro n
  induction n using Nat.strong_induction_on with
  | _ n IH =>
      intro fuel hle
      match fuel with
      | 0 =>
          have : n = 0 := by omega
          simp [this, natDigitsRev]
      | f + 1 =>
          by_cases hn : n = 0
          · simp [hn, natDigitsRev]
          · have hdiv : n / 10 < n := Nat.div_lt_self (by omega) (by omega)
            have hdivle : n / 10 ≤ f := by omega
            have hdig : Nat.digits 10 n = n % 10 :: Nat.digits 10 (n / 10) :=
              Nat.digits_def' (by norm_num) (by omega)
            rw [natDigitsRev, if_neg hn, hdig, IH (n / 10) hdiv f hdivle]

theorem serNat_eq_digits (n : Nat) :
    serNat n = if n = 0 then ['0'] else ((Nat.digits 10 n).map Nat.digitChar).reverse := by
  rw [serNat, natDigitsRev_eq_digits n n le_rfl]

theorem serNat_all_digits (n : Nat) : ∀ c ∈ serNat n, isDigitCh c = true := by
  rw [serNat_eq_digits]
  by_cases hn : n = 0
  · simp [hn]
    decide
  · rw [if_neg hn]
    intro c hc
    simp only [List.mem_reverse, List.mem_map] at hc
    obtain ⟨d, hd, rfl⟩ := hc
    exact digitChar_isDigit d (Nat.digits_lt_base (by norm_num) hd)

theorem serNat_ne_nil (n : Nat) : serNat n ≠ [] := by
  rw [serNat_eq_digits]
  by_cases hn : n = 0
  · simp [hn]
  · rw [if_neg hn]
    simp [Nat.digits_ne_nil_iff_ne_zero, hn]

theorem map_charToDigit_digitChar (l : List Nat) (h : ∀ d ∈ l, d < 10) :
    (l.map Nat.digitChar).map charToDigit = l := by
  induction l with
  | nil => simp
  | cons d t ih =>
      simp only [List.map_cons]
      rw [charToDigit_digitChar d (h d (by simp)), ih (fun x hx => h x (by simp [hx]))]

theorem serNat_inj (a b : Nat) (h : serNat a = serNat b) : a = b := by
  have hzmap : List.map charToDigit ['0'] = [0] := by decide
  have key : ∀ m, m ≠ 0 → ((Nat.digits 10 m).map Nat.digitChar).reverse ≠ ['0'] := by
    intro m hm hc
    have h1 : List.map Nat.digitChar (Nat.digits 10 m) = ['0'] := by
      simpa using congrArg List.reverse hc
    have h2 := congrArg (List.map charToDigit) h1
    rw [map_charToDigit_digitChar _ (fun d hd => Nat.digits_lt_base (by norm_num) hd),
      hzmap] at h2
    have h4 := Nat.ofDigits_digits 10 m
    rw [h2] at h4
    simp [Nat.ofDigits] at h4
    exact hm h4.symm
  rw [serNat_eq_digits, serNat_eq_digits] at h
  by_cases ha : a = 0 <;> by_cases hb : b = 0
  · omega
  · rw [if_pos ha, if_neg hb] at h
    exact absurd h.symm (key b hb)
  · rw [if_neg ha, if_pos hb] at h
    exact absurd h (key a ha)
  · rw [if_neg ha, if_neg hb] at h
    have h1 := congrArg List.reverse h
    simp only [List.reverse_reverse] at h1
    have h2 := congrArg (List.map charToDigit) h1
    rw [map_charToDigit_digitChar _ (fun d hd => Nat.digits_lt_base (by norm_num) hd),
      map_charToDigit_digitChar _ (fun d hd => Nat.digits_lt_base (by norm_num) hd)] at h2
    calc a = Nat.ofDigits 10 (Nat.digits 10 a) := (Nat.ofDigits_digits 10 a).symm
      _ = Nat.ofDigits 10 (Nat.digits 10 b) := by rw [h2]
      _ = b := Nat.ofDigits_digits 10 b

theorem digitRun_unamb : ∀ (d1 d2 r1 r2 : List Char),
    (∀ c ∈ d1, isDigitCh c = true) → (∀ c ∈ d2, isDigitCh c = true) →
    numOk r1 = true → numOk r2 = true →
    d1 ++ r1 = d2 ++ r2 → d1 = d2 ∧ r1 = r2 := by
  intro d1
  induction d1 with
  | nil =>
      intro d2 r1 r2 hd1 hd2 h1 h2 heq
      cases d2 with
      | nil => exact ⟨rfl, heq⟩
      | cons c t =>
          rw [List.nil_append, List.cons_append] at heq
          rw [heq] at h1
          simp only [numOk, Bool.not_eq_true'] at h1
          exact absurd (hd2 c (by simp)) (by simp [h1])
  | cons c1 t1 ih =>
      intro d2 r1 r2 hd1 hd2 h1 h2 heq
      cases d2 with
      | nil =>
          rw [List.nil_append, List.cons_append] at heq
          rw [← heq] at h2
          simp only [numOk, Bool.not_eq_true'] at h2
          exact absurd (hd1 c1 (by simp)) (by simp [h2])
      | cons c2 t2 =>
          simp only [List.cons_append, List.cons.injEq] at heq
          obtain ⟨hc, ht⟩ := heq
          obtain ⟨he, hr⟩ :=
            ih t2 r1 r2 (fun c h => hd1 c (by simp [h])) (fun c h => hd2 c (by simp [h])) h1 h2 ht
          exact ⟨by rw [hc, he], hr⟩

theorem serNat_unamb (a b : Nat) (r1 r2 : List Char)
    (h1 : numOk r1 = true) (h2 : numOk r2 = true)
    (heq : serNat a ++ r1 = serNat b ++ r2) : a = b ∧ r1 = r2 := by
  obtain ⟨hd, hr⟩ := digitRun_unamb (serNat a) (serNat b) r1 r2
    (serNat_all_digits a) (serNat_all_digits b) h1 h2 heq
  exact ⟨serNat_inj a b hd, hr⟩

theorem serNat_head (n : Nat) : ∃ c t, serNat n = c :: t ∧ isDigitCh c = true := by
  cases hs : serNat n with
  | nil => exact absurd hs (serNat_ne_nil n)
  | cons c t => exact ⟨c, t, rfl, serNat_all_digits n c (by simp [hs])⟩

theorem serInt_unamb (i j : Int) (r1 r2 : List Char)
    (h1 : numOk r1 = true) (h2 : numOk r2 = true)
    (heq : serInt i ++ r1 = serInt j ++ r2) : i = j ∧ r1 = r2 := by
  unfold serInt at heq
  by_cases hi : i < 0 <;> by_cases hj : j < 0
  · rw [if_pos hi, if_pos hj] at heq
    simp only [List.cons_append, List.cons.injEq, true_and] at heq
    obtain ⟨ha, hr⟩ := serNat_unamb _ _ _ _ h1 h2 heq
    exact ⟨by omega, hr⟩
  · rw [if_pos hi, if_neg hj] at heq
    obtain ⟨c, t, hct, hcd⟩ := serNat_head j.toNat
    rw [hct] at heq
    simp only [List.cons_append, List.cons.injEq] at heq
    rw [← heq.1] at hcd
    exact absurd hcd (by decide)
  · rw [if_neg hi, if_pos hj] at heq
    obtain ⟨c, t, hct, hcd⟩ := serNat_head i.toNat
    rw [hct] at heq
    simp only [List.cons_append, List.cons.injEq] at heq
    rw [heq.1] at hcd
    exact absurd hcd (by decide)
  · rw [if_neg hi, if_neg hj] at heq
    obtain ⟨ha, hr⟩ := serNat_unamb _ _ _ _ h1 h2 heq
    exact ⟨by omega, hr⟩

theorem escChars_cons (c : Char) (t : List Char) :
    escChars (c :: t) = escChar c ++ escChars t := by
  simp [escChars]

theorem escChar_cases (c : Char) :
    (∃ e, escChar c = ['\\', e] ∧ escCode e = some c) ∨
      (escChar c = [c] ∧ c ≠ '\\' ∧ c ≠ '"') := by
  by_cases h1 : c = '"'
  · subst h1
    exact Or.inl ⟨'"', by decide, by decide⟩
  · by_cases h2 : c = '\\'
    · subst h2
      exact Or.inl ⟨'\\', by decide, by decide⟩
    · by_cases h3 : c = '\n'
      · subst h3
        exact Or.inl ⟨'n', by decide, by decide⟩
      · by_cases h4 : c = '\r'
        · subst h4
          exact Or.inl ⟨'r', by decide, by decide⟩
        · by_cases h5 : c = '\t'
          · subst h5
            exact Or.inl ⟨'t', by decide, by decide⟩
          · right
            refine ⟨?_, h2, h1⟩
            simp [escChar, h1, h2, h3, h4, h5]

theorem esc_unamb : ∀ (l1 l2 r1 r2 : List Char),
    escChars l1 ++ '"' :: r1 = escChars l2 ++ '"' :: r2 → l1 = l2 ∧ r1 = r2 := by
  intro l1
  induction l1 with
  | nil =>
      intro l2 r1 r2 heq
      cases l2 with
      | nil => simpa [escChars] using heq
      | cons c t =>
          exfalso
          rw [escChars_cons] at heq
          rcases escChar_cases c with ⟨e, he, _⟩ | ⟨he, _, hq⟩
          · rw [he] at heq
            simp [escChars] at heq
          · rw [he] at heq
            simp [escChars] at heq
            exact hq heq.1.symm
  | cons c1 t1 ih =>
      intro l2 r1 r2 heq
      cases l2 with
      | nil =>
          exfalso
          rw [escChars_cons] at heq
          rcases escChar_cases c1 with ⟨e, he, _⟩ | ⟨he, _, hq⟩
          · rw [he] at heq
            simp [escChars] at heq
          · rw [he] at heq
            simp [escChars] at heq
            exact hq heq.1
      | cons c2 t2 =>
          rw [escChars_cons, escChars_cons] at heq
          rcases escChar_cases c1 with ⟨e1, he1, hc1⟩ | ⟨he1, hb1, hq1⟩ <;>
            rcases escChar_cases c2 with ⟨e2, he2, hc2⟩ | ⟨he2, hb2, hq2⟩
          · rw [he1, he2] at heq
            simp only [List.cons_append, List.nil_append, List.append_assoc,
              List.cons.injEq] at heq
            obtain ⟨-, he, ht⟩ := heq
            rw [he, hc2] at hc1
            have hcc : c1 = c2 := (Option.some.inj hc1).symm
            obtain ⟨hl, hr⟩ := ih t2 r1 r2 ht
            exact ⟨by rw [hcc, hl], hr⟩
          · exfalso
            rw [he1, he2] at heq
            simp only [List.cons_append, List.cons.injEq] at heq
            exact hb2 heq.1.symm
          · exfalso
            rw [he1, he2] at heq
            simp only [List.cons_append, List.cons.injEq] at heq
            exact hb1 heq.1
          · rw [he1, he2] at heq
            simp only [List.cons_append, List.cons.injEq] at heq
            obtain ⟨hcc, ht⟩ := heq
            obtain ⟨hl, hr⟩ := ih t2 r1 r2 ht
            exact ⟨by rw [hcc, hl], hr⟩

theorem ctorIdx_le (v : JsonValue) : ctorIdx v ≤ 6 := by
  cases v <;> simp [ctorIdx]

theorem serChars_head (v : JsonValue) :
    ∃ c t, serChars v = c :: t ∧ headKind c = ctorIdx v := by
  cases v with
  | null => exact ⟨'n', _, rfl, by decide⟩
  | jbool b =>
      cases b
      · exact ⟨'f', _, rfl, by decide⟩
      · exact ⟨'t', _, rfl, by decide⟩
  | jnum i =>
      by_cases hi : i < 0
      · refine ⟨'-', serNat i.natAbs, ?_, by simp only [ctorIdx]; decide⟩
        rw [show serChars (.jnum i) = serInt i from rfl, serInt, if_pos hi]
      · obtain ⟨c, t, hct, hcd⟩ := serNat_head i.toNat
        refine ⟨c, t, ?_, ?_⟩
        · rw [show serChars (.jnum i) = serInt i from rfl, serInt, if_neg hi, hct]
        · simp [headKind, hcd, ctorIdx]
  | jstr s => exact ⟨'"', _, rfl, by simp only [ctorIdx]; decide⟩
  | jarr xs => exact ⟨'[', _, rfl, by simp only [ctorIdx]; decide⟩
  | jobj kvs => exact ⟨'{', _, rfl, by simp only [ctorIdx]; decide⟩

theorem serElems_cons (x : JsonValue) (xs : List JsonValue) :
    serElems (x :: xs) = serChars x ++ serElemsRest xs := by
  cases xs <;> simp [serElems, serElemsRest]

theorem serFields_cons (k : String) (v : JsonValue) (fs : List (String × JsonValue)) :
    serFields ((k, v) :: fs) =
      ('"' :: (escChars k.data ++ '"' :: ':' :: serChars v)) ++ serFieldsRest fs := by
  cases fs <;> simp [serFields, serFieldsRest]

theorem numOk_serElemsRest (xs : List JsonValue) (c : Char) (r : List Char)
    (hc : isDigitCh c = false) : numOk (serElemsRest xs ++ c :: r) = true := by
  cases xs <;> simp [serElemsRest, numOk, hc]
  decide

theorem numOk_serFieldsRest (fs : List (String × JsonValue)) (c : Char) (r : List Char)
    (hc : isDigitCh c = false) : numOk (serFieldsRest fs ++ c :: r) = true := by
  cases fs <;> simp [serFieldsRest, numOk, hc]
  decide

theorem string_mk_inj (s1 s2 : String) (h : s1.data = s2.data) : s1 = s2 := by
  cases s1
  cases s2
  exact congrArg String.mk h

theorem ser_unamb_master : ∀ n : Nat,
    (∀ (v1 v2 : JsonValue) (r1 r2 : List Char), jsize v1 ≤ n →
       serChars v1 ++ r1 = serChars v2 ++ r2 → numOk r1 = true → numOk r2 = true →
       v1 = v2 ∧ r1 = r2) ∧
    (∀ (xs ys : List JsonValue) (r1 r2 : List Char), lsize xs ≤ n →
       serElems xs ++ ']' :: r1 = serElems ys ++ ']' :: r2 → xs = ys ∧ r1 = r2) ∧
    (∀ (kvs fs : List (String × JsonValue)) (r1 r2 : List Char), fsize kvs ≤ n →
       serFields kvs ++ '}' :: r1 = serFields fs ++ '}' :: r2 → kvs = fs ∧ r1 = r2) := by
  intro n
  induction n using Nat.strong_induction_on with
  | _ n IH =>
  refine ⟨?_, ?_, ?_⟩
  · -- value level
    intro v1 v2 r1 r2 hsz heq h1 h2
    have hctor : ctorIdx v1 = ctorIdx v2 := by
      obtain ⟨c1, t1, e1, k1⟩ := serChars_head v1
      obtain ⟨c2, t2, e2, k2⟩ := serChars_head v2
      rw [e1, e2] at heq
      simp only [List.cons_append, List.cons.injEq] at heq
      rw [← k1, ← k2, heq.1]
    cases v1 with
    | null =>
        cases v2 <;> (simp only [ctorIdx] at hctor; try omega)
        exact ⟨rfl, by simpa [serChars] using heq⟩
    | jbool b1 =>
        cases v2 <;> (simp only [ctorIdx] at hctor; try omega)
        rename_i b2
        cases b1 <;> cases b2 <;> simp [serChars] at heq <;> exact ⟨rfl, heq⟩
    | jnum i1 =>
        cases v2 <;> (simp only [ctorIdx] at hctor; try omega)
        rename_i i2
        have heq' : serInt i1 ++ r1 = serInt i2 ++ r2 := by
          simpa [serChars] using heq
        obtain ⟨hii, hr⟩ := serInt_unamb i1 i2 r1 r2 h1 h2 heq'
        exact ⟨by rw [hii], hr⟩
    | jstr s1 =>
        cases v2 <;> (simp only [ctorIdx] at hctor; try omega)
        rename_i s2
        have heq' : escChars s1.data ++ '"' :: r1 = escChars s2.data ++ '"' :: r2 := by
          simpa [serChars] using heq
        obtain ⟨hd, hr⟩ := esc_unamb _ _ _ _ heq'
        exact ⟨by rw [string_mk_inj s1 s2 hd], hr⟩
    | jarr xs =>
        cases v2 <;> (simp only [ctorIdx] at hctor; try omega)
        rename_i ys
        have heq' : serElems xs ++ ']' :: r1 = serElems ys ++ ']' :: r2 := by
          simpa [serChars] using heq
        have hlt : lsize xs < n := by
          have hx : jsize (JsonValue.jarr xs) = 1 + lsize xs := by simp [jsize]
          omega
        obtain ⟨hxy, hr⟩ := (IH (lsize xs) hlt).2.1 xs ys r1 r2 le_rfl heq'
        exact ⟨by rw [hxy], hr⟩
    | jobj kvs =>
        cases v2 <;> (simp only [ctorIdx] at hctor; try omega)
        rename_i fs
        have heq' : serFields kvs ++ '}' :: r1 = serFields fs ++ '}' :: r2 := by
          simpa [serChars] using heq
        have hlt : fsize kvs < n := by
          have hx : jsize (JsonValue.jobj kvs) = 1 + fsize kvs := by simp [jsize]
          omega
        obtain ⟨hxy, hr⟩ := (IH (fsize kvs) hlt).2.2 kvs fs r1 r2 le_rfl heq'
        exact ⟨by rw [hxy], hr⟩
  · -- element-list level
    intro xs ys r1 r2 hsz heq
    cases xs with
    | nil =>
        cases ys with
        | nil => simpa [serElems] using heq
        | cons y ys' =>
            exfalso
            obtain ⟨c, t, ec, kc⟩ := serChars_head y
            rw [serElems_cons y ys', ec] at heq
            simp only [serElems, List.nil_append, List.cons_append, List.append_assoc,
              List.cons.injEq] at heq
            rw [← heq.1] at kc
            have h7 : headKind ']' = 7 := by decide
            have h6 := ctorIdx_le y
            omega
    | cons x xs' =>
        cases ys with
        | nil =>
            exfalso
            obtain ⟨c, t, ec, kc⟩ := serChars_head x
            rw [serElems_cons x xs', ec] at heq
            simp only [serElems, List.nil_append, List.cons_append, List.append_assoc,
              List.cons.injEq] at heq
            rw [heq.1] at kc
            have h7 : headKind ']' = 7 := by decide
            have h6 := ctorIdx_le x
            omega
        | cons y ys' =>
            rw [serElems_cons x xs', serElems_cons y ys'] at heq
            have heq' : serChars x ++ (serElemsRest xs' ++ ']' :: r1)
                = serChars y ++ (serElemsRest ys' ++ ']' :: r2) := by
              simpa [List.append_assoc] using heq
            have hjlt : jsize x < n := by
              have hx : lsize (x :: xs') = 1 + jsize x + lsize xs' := by simp [lsize]
              omega
            obtain ⟨hxy, hrest⟩ := (IH (jsize x) hjlt).1 x y _ _ le_rfl heq'
              (numOk_serElemsRest _ _ _ (by decide)) (numOk_serElemsRest _ _ _ (by decide))
            cases xs' with
            | nil =>
                cases ys' with
                | nil =>
                    simp only [serElemsRest, List.nil_append, List.cons.injEq, true_and] at hrest
                    exact ⟨by rw [hxy], hrest⟩
                | cons y2 ys'' =>
                    exfalso
                    simp [serElemsRest] at hrest
            | cons x2 xs'' =>
                cases ys' with
                | nil =>
                    exfalso
                    simp [serElemsRest] at hrest
                | cons y2 ys'' =>
                    simp only [serElemsRest, List.cons_append, List.cons.injEq, true_and] at hrest
                    have hlt2 : lsize (x2 :: xs'') < n := by
                      have hx : lsize (x :: x2 :: xs'') = 1 + jsize x + lsize (x2 :: xs'') := by
                        simp [lsize]
                      omega
                    obtain ⟨hxs, hr⟩ := (IH (lsize (x2 :: xs'')) hlt2).2.1 (x2 :: xs'')
                      (y2 :: ys'') r1 r2 le_rfl hrest
                    exact ⟨by rw [hxy, hxs], hr⟩
  · -- field-list level
    intro kvs fs r1 r2 hsz heq
    cases kvs with
    | nil =>
        cases fs with
        | nil => simpa [serFields] using heq
        | cons f fs' =>
            exfalso
            obtain ⟨k2, v2⟩ := f
            rw [serFields_cons] at heq
            simp [serFields] at heq
    | cons kv kvs' =>
        obtain ⟨k1, v1⟩ := kv
        cases fs with
        | nil =>
            exfalso
            rw [serFields_cons] at heq
            simp [serFields] at heq
        | cons f fs' =>
            obtain ⟨k2, v2⟩ := f
            rw [serFields_cons, serFields_cons] at heq
            have heq' : escChars k1.data ++
                  '"' :: (':' :: (serChars v1 ++ (serFieldsRest kvs' ++ '}' :: r1)))
                = escChars k2.data ++
                  '"' :: (':' :: (serChars v2 ++ (serFieldsRest fs' ++ '}' :: r2))) := by
              simpa [List.append_assoc] using heq
            obtain ⟨hk, hrest0⟩ := esc_unamb _ _ _ _ heq'
            have hrest : serChars v1 ++ (serFieldsRest kvs' ++ '}' :: r1)
                = serChars v2 ++ (serFieldsRest fs' ++ '}' :: r2) := by
              simpa using hrest0
            have hjlt : jsize v1 < n := by
              have hx : fsize ((k1, v1) :: kvs') = 1 + jsize v1 + fsize kvs' := by simp [fsize]
              omega
            obtain ⟨hv, hrest2⟩ := (IH (jsize v1) hjlt).1 v1 v2 _ _ le_rfl hrest
              (numOk_serFieldsRest _ _ _ (by decide)) (numOk_serFieldsRest _ _ _ (by decide))
            have hkk : k1 = k2 := string_mk_inj k1 k2 hk
            cases kvs' with
            | nil =>
                cases fs' with
                | nil =>
                    simp only [serFieldsRest, List.nil_append, List.cons.injEq, true_and] at hrest2
                    exact ⟨by rw [hkk, hv], hrest2⟩
                | cons f2 fs'' =>
                    exfalso
                    simp [serFieldsRest] at hrest2
            | cons kv2 kvs'' =>
                cases fs' with
                | nil =>
                    exfalso
                    simp [serFieldsRest] at hrest2
                | cons f2 fs'' =>
                    simp only [serFieldsRest, List.cons_append, List.cons.injEq, true_and] at hrest2
                    have hlt2 : fsize (kv2 :: kvs'') < n := by
                      have hx : fsize ((k1, v1) :: kv2 :: kvs'')
                          = 1 + jsize v1 + fsize (kv2 :: kvs'') := by simp [fsize]
                      omega
                    obtain ⟨hxs, hr⟩ := (IH (fsize (kv2 :: kvs'')) hlt2).2.2 (kv2 :: kvs'')
                      (f2 :: fs'') r1 r2 le_rfl hrest2
                    exact ⟨by rw [hkk, hv, hxs], hr⟩

theorem serChars_inj (v1 v2 : JsonValue) (h : serChars v1 = serChars v2) : v1 = v2 :=
  ((ser_unamb_master (jsize v1)).1 v1 v2 [] [] le_rfl (by simpa using h) rfl rfl).1

theorem char_toNat_inj (c1 c2 : Char) (h : c1.toNat = c2.toNat) : c1 = c2 :=
  Char.ext (UInt32.ext h)

theorem utf8EncodeChar_ne_nil (c : Char) : utf8EncodeChar c ≠ [] := by
  unfold utf8EncodeChar
  by_cases a : c.toNat < 0x80 <;> by_cases b : c.toNat < 0x800 <;>
    by_cases d : c.toNat < 0x10000 <;> simp [a, b, d]

theorem utf8EncodeChar_inj (c1 c2 : Char) (h : utf8EncodeChar c1 = utf8EncodeChar c2) :
    c1 = c2 := by
  apply char_toNat_inj
  unfold utf8EncodeChar at h
  by_cases a1 : c1.toNat < 0x80 <;> by_cases b1 : c1.toNat < 0x800 <;>
    by_cases d1 : c1.toNat < 0x10000 <;>
    by_cases a2 : c2.toNat < 0x80 <;> by_cases b2 : c2.toNat < 0x800 <;>
    by_cases d2 : c2.toNat < 0x10000 <;>
    simp [a1, b1, d1, a2, b2, d2] at h <;> omega

theorem utf8_len_eq (c1 c2 : Char) (X Y : List Nat)
    (h : utf8EncodeChar c1 ++ X = utf8EncodeChar c2 ++ Y) :
    (utf8EncodeChar c1).length = (utf8EncodeChar c2).length := by
  by_cases a1 : c1.toNat < 0x80 <;> by_cases b1 : c1.toNat < 0x800 <;>
    by_cases d1 : c1.toNat < 0x10000 <;>
    by_cases a2 : c2.toNat < 0x80 <;> by_cases b2 : c2.toNat < 0x800 <;>
    by_cases d2 : c2.toNat < 0x10000 <;>
    (try (simp [utf8EncodeChar, a1, b1, d1, a2, b2, d2]; done)) <;>
    (exfalso; simp [utf8EncodeChar, a1, b1, d1, a2, b2, d2] at h; omega)

theorem utf8Encode_inj : ∀ (l1 l2 : List Char), utf8Encode l1 = utf8Encode l2 → l1 = l2 := by
  intro l1
  induction l1 with
  | nil =>
      intro l2 h
      cases l2 with
      | nil => rfl
      | cons c t =>
          exfalso
          simp only [utf8Encode, List.flatMap_nil, List.flatMap_cons] at h
          exact utf8EncodeChar_ne_nil c (List.append_eq_nil.mp h.symm).1
  | cons c1 t1 ih =>
      intro l2 h
      cases l2 with
      | nil =>
          exfalso
          simp only [utf8Encode, List.flatMap_nil, List.flatMap_cons] at h
          exact utf8EncodeChar_ne_nil c1 (List.append_eq_nil.mp h).1
      | cons c2 t2 =>
          simp only [utf8Encode, List.flatMap_cons] at h
          have hlen := utf8_len_eq c1 c2 _ _ h
          obtain ⟨henc, hrest⟩ := List.append_inj h hlen
          rw [utf8EncodeChar_inj c1 c2 henc, ih t2 (by simpa [utf8Encode] using hrest)]

theorem utf8_ser_jobj_inj (m1 m2 : List (String × JsonValue))
    (h : utf8Encode (serChars (.jobj m1)) = utf8Encode (serChars (.jobj m2))) : m1 = m2 := by
  have := serChars_inj _ _ (utf8Encode_inj _ _ h)
  simpa using this

/-! ## C5 -/

/-- C5 counterexample: the claim reads template differences at the level of
the written fields, but `json.Unmarshal` decodes numbers to `float64`, so
the two distinct templates `{"a":9007199254740993}` and
`{"a":9007199254740992}` — differing only in the `a` field's numeral —
decode to the same object (both numerals round to the double `2^53`) and
receive identical fingerprints, not by any SHA-256 collision. -/
theorem c5_counterexample :
    templateTwoPow53Succ ≠ templateTwoPow53 ∧
    parseTemplate templateTwoPow53Succ = some [("a", .jnum 9007199254740992)] ∧
    parseTemplate templateTwoPow53 = some [("a", .jnum 9007199254740992)] ∧
    generateCacheKeyFromTemplate templateTwoPow53Succ
      = generateCacheKeyFromTemplate templateTwoPow53 :=
  ⟨by decide, by decide, by decide, by decide⟩

/-- C5 (amended): `generateCacheKeyFromTemplate` is deterministic and
injective modulo SHA-256 at the granularity of the decoded template: numbers
are decoded to `float64` values, and for templates that both unmarshal, if
the decoded objects agree after removing the top-level `archiveLocation`
field they get the same fingerprint, while if the decoded objects differ in
any other way the byte strings fed to SHA-256 differ, so the fingerprints
differ unless SHA-256 itself collides (the reading the spec gives
"collision-freedom modulo SHA-256"). -/
theorem c5_deterministic_injective (t1 t2 : String)
    (o1 o2 : List (String × JsonValue))
    (h1 : parseTemplate t1 = some o1) (h2 : parseTemplate t2 = some o2) :
    (removeField o1 ArchiveLocationKey = removeField o2 ArchiveLocationKey →
       generateCacheKeyFromTemplate t1 = generateCacheKeyFromTemplate t2) ∧
    (removeField o1 ArchiveLocationKey ≠ removeField o2 ArchiveLocationKey →
       cacheKeyPreimage t1 ≠ cacheKeyPreimage t2) := by
  constructor
  · intro h
    exact genKey_eq_of_removeField_eq t1 t2 o1 o2 h1 h2 h
  · intro hne
    unfold cacheKeyPreimage
    simp only [h1, h2, ne_eq, Option.some.injEq]
    intro he
    exact hne (utf8_ser_jobj_inj _ _ he)

theorem c5_witness :
    parseTemplate templateNoArchive = some ((parseTemplate templateNoArchive).getD []) ∧
    parseTemplate templateOtherSteps = some ((parseTemplate templateOtherSteps).getD []) ∧
    removeField ((parseTemplate templateNoArchive).getD []) ArchiveLocationKey ≠
      removeField ((parseTemplate templateOtherSteps).getD []) ArchiveLocationKey ∧
    cacheKeyPreimage templateNoArchive ≠ cacheKeyPreimage templateOtherSteps ∧
    removeField ((parseTemplate templateRun123).getD []) ArchiveLocationKey =
      removeField ((parseTemplate templateRun456).getD []) ArchiveLocationKey ∧
    generateCacheKeyFromTemplate templateRun123 = generateCacheKeyFromTemplate templateRun456 :=
  ⟨rfl, rfl, by decide,
   (c5_deterministic_injective templateNoArchive templateOtherSteps _ _ rfl rfl).2 (by decide),
   by decide,
   (c5_deterministic_injective templateRun123 templateRun456 _ _ rfl rfl).1 (by decide)⟩

end KFPCache
